import Mathlib

/-!
Verification of the cadence workload-planning engine.

The definitions below are a shallow embedding of `src/risk_model.py` and
`src/scheduler.py`: Python floats become `ℚ` where the computation is exact
rational arithmetic, and `ℝ` where the transcendental `sigmoid` enters;
`round(x, n)` becomes decimal round-half-to-even (Python's documented
rounding mode); pandas column access with a missing column (a raised
`KeyError`) becomes `Except`.
-/

namespace Cadence

/-! ### Decimal rounding (Python `round`)

`rhe x` rounds a rational to the nearest integer, ties to even, which is
Python's rounding mode for `round`.  `rheR` is the same function on `ℝ`
(needed where the rounded quantity involves `Real.exp`). -/

def rhe (x : ℚ) : ℤ :=
  if x - ⌊x⌋ < 1/2 then ⌊x⌋
  else if 1/2 < x - ⌊x⌋ then ⌊x⌋ + 1
  else if ⌊x⌋ % 2 = 0 then ⌊x⌋ else ⌊x⌋ + 1

open Classical in
noncomputable def rheR (x : ℝ) : ℤ :=
  if x - ⌊x⌋ < 1/2 then ⌊x⌋
  else if 1/2 < x - ⌊x⌋ then ⌊x⌋ + 1
  else if ⌊x⌋ % 2 = 0 then ⌊x⌋ else ⌊x⌋ + 1

/-- Python `round(x, 2)` on rationals. -/
def round2 (x : ℚ) : ℚ := (rhe (100 * x) : ℚ) / 100

/-- Python `round(x, 1)` on reals. -/
noncomputable def round1R (x : ℝ) : ℝ := (rheR (10 * x) : ℝ) / 10

theorem rhe_le_add_half (x : ℚ) : (rhe x : ℚ) ≤ x + 1/2 := by
  unfold rhe
  have hfl : (⌊x⌋ : ℚ) ≤ x := Int.floor_le x
  by_cases h1 : x - ⌊x⌋ < 1/2
  · rw [if_pos h1]; linarith
  · rw [if_neg h1]
    by_cases h2 : (1:ℚ)/2 < x - ⌊x⌋
    · rw [if_pos h2]; push_cast; linarith
    · have hx : x - ⌊x⌋ = 1/2 := le_antisymm (not_lt.mp h2) (not_lt.mp h1)
      rw [if_neg h2]
      split_ifs <;> push_cast <;> linarith

theorem sub_half_le_rhe (x : ℚ) : x - 1/2 ≤ (rhe x : ℚ) := by
  unfold rhe
  have hub : x < ⌊x⌋ + 1 := Int.lt_floor_add_one x
  by_cases h1 : x - ⌊x⌋ < 1/2
  · rw [if_pos h1]; linarith
  · rw [if_neg h1]
    have h1' : (1:ℚ)/2 ≤ x - ⌊x⌋ := not_lt.mp h1
    by_cases h2 : (1:ℚ)/2 < x - ⌊x⌋
    · rw [if_pos h2]; push_cast; linarith
    · rw [if_neg h2]
      split_ifs <;> push_cast <;> linarith

theorem rheR_le_add_half (x : ℝ) : (rheR x : ℝ) ≤ x + 1/2 := by
  unfold rheR
  have hfl : (⌊x⌋ : ℝ) ≤ x := Int.floor_le x
  by_cases h1 : x - ⌊x⌋ < 1/2
  · rw [if_pos h1]; linarith
  · rw [if_neg h1]
    by_cases h2 : (1:ℝ)/2 < x - ⌊x⌋
    · rw [if_pos h2]; push_cast; linarith
    · have hx : x - ⌊x⌋ = 1/2 := le_antisymm (not_lt.mp h2) (not_lt.mp h1)
      rw [if_neg h2]
      split_ifs <;> push_cast <;> linarith

theorem sub_half_le_rheR (x : ℝ) : x - 1/2 ≤ (rheR x : ℝ) := by
  unfold rheR
  have hub : x < ⌊x⌋ + 1 := Int.lt_floor_add_one x
  by_cases h1 : x - ⌊x⌋ < 1/2
  · rw [if_pos h1]; linarith
  · rw [if_neg h1]
    have h1' : (1:ℝ)/2 ≤ x - ⌊x⌋ := not_lt.mp h1
    by_cases h2 : (1:ℝ)/2 < x - ⌊x⌋
    · rw [if_pos h2]; push_cast; linarith
    · rw [if_neg h2]
      split_ifs <;> push_cast <;> linarith

/-- Round-half-to-even is weakly monotone. -/
theorem rhe_mono {x y : ℚ} (hxy : x ≤ y) : rhe x ≤ rhe y := by
  unfold rhe
  have hnm : ⌊x⌋ ≤ ⌊y⌋ := Int.floor_le_floor hxy
  rcases lt_or_eq_of_le hnm with hlt | heq
  · -- different floors: rhe x ≤ ⌊x⌋ + 1 ≤ ⌊y⌋ ≤ rhe y
    have hx1 : (if x - ⌊x⌋ < 1/2 then ⌊x⌋
        else if 1/2 < x - ⌊x⌋ then ⌊x⌋ + 1
        else if ⌊x⌋ % 2 = 0 then ⌊x⌋ else ⌊x⌋ + 1) ≤ ⌊x⌋ + 1 := by
      split_ifs <;> omega
    have hy1 : ⌊y⌋ ≤ (if y - ⌊y⌋ < 1/2 then ⌊y⌋
        else if 1/2 < y - ⌊y⌋ then ⌊y⌋ + 1
        else if ⌊y⌋ % 2 = 0 then ⌊y⌋ else ⌊y⌋ + 1) := by
      split_ifs <;> omega
    omega
  · -- same floor
    rw [← heq]
    have hfr : x - (⌊x⌋ : ℚ) ≤ y - (⌊x⌋ : ℚ) := by linarith
    by_cases hx1 : x - (⌊x⌋ : ℚ) < 1/2
    · rw [if_pos hx1]
      split_ifs <;> omega
    · have hy1 : ¬ y - (⌊x⌋ : ℚ) < 1/2 := fun h => hx1 (lt_of_le_of_lt hfr h)
      rw [if_neg hx1, if_neg hy1]
      by_cases hx2 : (1:ℚ)/2 < x - ⌊x⌋
      · rw [if_pos hx2, if_pos (lt_of_lt_of_le hx2 hfr)]
      · rw [if_neg hx2]
        by_cases hy2 : (1:ℚ)/2 < y - ⌊x⌋
        · rw [if_pos hy2]
          split_ifs <;> omega
        · rw [if_neg hy2]

theorem rheR_mono {x y : ℝ} (hxy : x ≤ y) : rheR x ≤ rheR y := by
  unfold rheR
  have hnm : ⌊x⌋ ≤ ⌊y⌋ := Int.floor_le_floor hxy
  rcases lt_or_eq_of_le hnm with hlt | heq
  · have hx1 : (if x - ⌊x⌋ < 1/2 then ⌊x⌋
        else if 1/2 < x - ⌊x⌋ then ⌊x⌋ + 1
        else if ⌊x⌋ % 2 = 0 then ⌊x⌋ else ⌊x⌋ + 1) ≤ ⌊x⌋ + 1 := by
      split_ifs <;> omega
    have hy1 : ⌊y⌋ ≤ (if y - ⌊y⌋ < 1/2 then ⌊y⌋
        else if 1/2 < y - ⌊y⌋ then ⌊y⌋ + 1
        else if ⌊y⌋ % 2 = 0 then ⌊y⌋ else ⌊y⌋ + 1) := by
      split_ifs <;> omega
    omega
  · rw [← heq]
    have hfr : x - (⌊x⌋ : ℝ) ≤ y - (⌊x⌋ : ℝ) := by linarith
    by_cases hx1 : x - (⌊x⌋ : ℝ) < 1/2
    · rw [if_pos hx1]
      split_ifs <;> omega
    · have hy1 : ¬ y - (⌊x⌋ : ℝ) < 1/2 := fun h => hx1 (lt_of_le_of_lt hfr h)
      rw [if_neg hx1, if_neg hy1]
      by_cases hx2 : (1:ℝ)/2 < x - ⌊x⌋
      · rw [if_pos hx2, if_pos (lt_of_lt_of_le hx2 hfr)]
      · rw [if_neg hx2]
        by_cases hy2 : (1:ℝ)/2 < y - ⌊x⌋
        · rw [if_pos hy2]
          split_ifs <;> omega
        · rw [if_neg hy2]

/-- Values in `[0, 1/200]` round to `0` at two decimals (`1/200` is the
half-even tie, and `⌊100·(1/200)⌋ = 0` is even). -/
theorem round2_eq_zero {x : ℚ} (h0 : 0 ≤ x) (h1 : x ≤ 1/200) : round2 x = 0 := by
  have hf : ⌊(100 : ℚ) * x⌋ = 0 := by
    rw [Int.floor_eq_zero_iff, Set.mem_Ico]
    constructor <;> [linarith; linarith]
  unfold round2 rhe
  rw [hf]
  by_cases hc : (100 : ℚ) * x - ((0 : ℤ) : ℚ) < 1/2
  · rw [if_pos hc]; norm_num
  · have h2 : ¬ (1:ℚ)/2 < 100 * x - ((0 : ℤ) : ℚ) := by push_cast; linarith
    rw [if_neg hc, if_neg h2, if_pos (by norm_num : (0:ℤ) % 2 = 0)]
    norm_num

theorem round2_mono {x y : ℚ} (h : x ≤ y) : round2 x ≤ round2 y := by
  unfold round2
  have h100 : ((rhe (100 * x) : ℚ)) ≤ ((rhe (100 * y) : ℚ)) := by
    exact_mod_cast rhe_mono (by linarith : 100 * x ≤ 100 * y)
  linarith

theorem round1R_mono {x y : ℝ} (h : x ≤ y) : round1R x ≤ round1R y := by
  unfold round1R
  have h10 : ((rheR (10 * x) : ℝ)) ≤ ((rheR (10 * y) : ℝ)) := by
    exact_mod_cast rheR_mono (by linarith : 10 * x ≤ 10 * y)
  linarith

theorem abs_round1R_sub_le (x : ℝ) : |round1R x - x| ≤ 1/20 := by
  unfold round1R
  have h1 := rheR_le_add_half (10 * x)
  have h2 := sub_half_le_rheR (10 * x)
  rw [abs_le]
  constructor <;> linarith

theorem abs_round2_sub_le (x : ℚ) : |round2 x - x| ≤ 1/200 := by
  unfold round2
  have h1 := rhe_le_add_half (100 * x)
  have h2 := sub_half_le_rhe (100 * x)
  rw [abs_le]
  constructor <;> linarith

/-! ### Risk model (`src/risk_model.py`)

A pandas row becomes a `Task`; the float `1e-9` epsilon guard becomes the
rational `eps`.  `compute_task_risk` copies the frame, checks the required
columns (raising `KeyError` on the first missing one), clips `days_left`
and `est_hours`, and then computes every derived column; each column is a
small definition below and `mkRiskRow` assembles the full row. -/

def eps : ℚ := 1 / 1000000000

structure Task where
  name : String
  days_left : ℤ
  est_hours : ℚ
  strategic_importance : ℚ
  business_impact : ℚ
  dependency_risk : Bool
deriving Repr, DecidableEq, Inhabited

/-- `out["days_left"].astype(int).clip(lower=1)` and
`out["est_hours"].astype(float).clip(lower=0.0)`. -/
def clipTask (t : Task) : Task :=
  { t with days_left := max 1 t.days_left, est_hours := max 0 t.est_hours }

/-- `out["days_left"].clip(upper=planning_horizon_days)` (on clipped rows). -/
def windowOf (planning_horizon_days : ℤ) (t : Task) : ℤ :=
  min t.days_left planning_horizon_days

/-- `deadline_window_days * float(available_hours_per_day)`. -/
def capacityBD (available_hours_per_day : ℚ) (planning_horizon_days : ℤ) (t : Task) : ℚ :=
  (windowOf planning_horizon_days t : ℚ) * available_hours_per_day

/-- `capacity_before_deadline - est_hours`. -/
def slackOf (cap : ℚ) (horizon : ℤ) (t : Task) : ℚ :=
  capacityBD cap horizon t - t.est_hours

/-- `(-slack_hours).clip(lower=0.0)`. -/
def sevOf (cap : ℚ) (horizon : ℤ) (t : Task) : ℚ :=
  max 0 (-(slackOf cap horizon t))

/-- `overload_severity / (available_hours_per_day + 1e-9)`. -/
def onormOf (cap : ℚ) (horizon : ℤ) (t : Task) : ℚ :=
  sevOf cap horizon t / (cap + eps)

/-- `1.0 / days_left` (on the clipped row). -/
def urgencyOf (t : Task) : ℚ := 1 / (t.days_left : ℚ)

/-- `out.loc[out["days_left"] <= row["days_left"], "est_hours"].sum()` —
the sum ranges over the clipped table, the row included. -/
def competingHours (clipped : List Task) (t : Task) : ℚ :=
  ((clipped.filter (fun u => decide (u.days_left ≤ t.days_left))).map Task.est_hours).sum

/-- `max(0.0, competing_hours / (window_cap + 1e-9) - 1.0)`. -/
def compOf (clipped : List Task) (cap : ℚ) (horizon : ℤ) (t : Task) : ℚ :=
  max 0 (competingHours clipped t / (capacityBD cap horizon t + eps) - 1)

/-- `dependency_risk.astype(bool).astype(int)`. -/
def depOf (t : Task) : ℚ := if t.dependency_risk then 1 else 0

/-- `(0.5*strategic_importance + 0.5*business_impact) / 5`, clipped at `0.1`. -/
def impactWeightOf (t : Task) : ℚ :=
  max (1/10) ((1/2 * t.strategic_importance + 1/2 * t.business_impact) / 5)

/-- `bias + w_overload*overload_norm + w_competition*competition_pressure
   + w_urgency*urgency + w_dep*dep` with the reference constants
`bias = -1.2, w_overload = 1.8, w_competition = 1.2, w_urgency = 1.1,
w_dep = 0.7`. -/
def riskScoreOf (clipped : List Task) (cap : ℚ) (horizon : ℤ) (t : Task) : ℚ :=
  -(6/5) + (9/5) * onormOf cap horizon t + (6/5) * compOf clipped cap horizon t
    + (11/10) * urgencyOf t + (7/10) * depOf t

noncomputable def sigmoid (x : ℚ) : ℝ := 1 / (1 + Real.exp (-(x : ℝ)))

/-- pandas `.clip(0.0, 1.0)`. -/
noncomputable def clip01 (x : ℝ) : ℝ := min 1 (max 0 x)

structure RiskRow where
  name : String
  days_left : ℤ
  est_hours : ℚ
  strategic_importance : ℚ
  business_impact : ℚ
  dependency_risk : Bool
  deadline_window_days : ℤ
  capacity_before_deadline : ℚ
  slack_hours : ℚ
  overload_severity : ℚ
  overload_norm : ℚ
  urgency : ℚ
  competition_pressure : ℚ
  dep : ℚ
  impact_weight : ℚ
  risk_score : ℚ
  failure_probability : ℝ
  expected_impact : ℝ
  expected_loss_hours : ℝ
deriving Inhabited

noncomputable def mkRiskRow (clipped : List Task) (cap : ℚ) (horizon : ℤ) (t : Task) :
    RiskRow :=
  { name := t.name
    days_left := t.days_left
    est_hours := t.est_hours
    strategic_importance := t.strategic_importance
    business_impact := t.business_impact
    dependency_risk := t.dependency_risk
    deadline_window_days := windowOf horizon t
    capacity_before_deadline := capacityBD cap horizon t
    slack_hours := slackOf cap horizon t
    overload_severity := sevOf cap horizon t
    overload_norm := onormOf cap horizon t
    urgency := urgencyOf t
    competition_pressure := compOf clipped cap horizon t
    dep := depOf t
    impact_weight := impactWeightOf t
    risk_score := riskScoreOf clipped cap horizon t
    failure_probability := clip01 (sigmoid (riskScoreOf clipped cap horizon t))
    expected_impact :=
      clip01 (sigmoid (riskScoreOf clipped cap horizon t)) * (impactWeightOf t : ℝ)
    expected_loss_hours :=
      clip01 (sigmoid (riskScoreOf clipped cap horizon t)) * (t.est_hours : ℝ) }

/-- The per-row computation of `compute_task_risk` after the column check. -/
noncomputable def riskRows (tasks : List Task) (cap : ℚ) (horizon : ℤ) : List RiskRow :=
  (tasks.map clipTask).map (mkRiskRow (tasks.map clipTask) cap horizon)

/-- The `i`-th output row (`default` out of range). -/
noncomputable def rowAt (tasks : List Task) (cap : ℚ) (horizon : ℤ) (i : ℕ) : RiskRow :=
  (riskRows tasks cap horizon).getD i default

inductive RiskError where
  | keyError (msg : String)
deriving DecidableEq, Repr

def required_cols : List String :=
  ["name", "days_left", "est_hours", "strategic_importance", "business_impact",
   "dependency_risk"]

/-- The first required column absent from the frame, in the order the source
loop checks them. -/
def findMissing (cols : List String) : Option String :=
  required_cols.find? (fun c => decide (c ∉ cols))

/-- A pandas DataFrame as the engine sees it: which columns are present,
plus the row data. -/
structure RawFrame where
  cols : List String
  rows : List Task

/-- `compute_task_risk`: raises `KeyError("Missing required column: {c}")`
for the first missing required column, otherwise returns the risk table. -/
noncomputable def compute_task_risk (df : RawFrame) (cap : ℚ) (horizon : ℤ) :
    Except RiskError (List RiskRow) :=
  match findMissing df.cols with
  | some c => .error (.keyError ("Missing required column: " ++ c))
  | none => .ok (riskRows df.rows cap horizon)

/-- `compute_weighted_stress`: impact-weighted mean failure probability,
scaled to 100 and rounded to one decimal. -/
noncomputable def compute_weighted_stress (rows : List RiskRow) : ℝ :=
  round1R ((((rows.map (fun r => r.failure_probability * (r.impact_weight : ℝ))).sum) /
    (((rows.map (fun r => (r.impact_weight : ℚ))).sum : ℚ) + eps)) * 100)

structure ForecastRow where
  capacity_hours_per_day : ℚ
  capacity_delta : ℚ
  stress_index : ℝ
  expected_loss_hours : ℝ
  high_risk_tasks_pct : ℝ
deriving Inhabited

/-- One scenario row of `forecast_system_risk`.  pandas' `.mean()` of an
empty boolean column is `NaN`; Lean's division by zero makes the (unused)
`high_risk_tasks_pct` field `0` there instead. -/
noncomputable def forecastRow (tasks : List Task) (horizon : ℤ) (base δ : ℚ) :
    ForecastRow :=
  { capacity_hours_per_day := max 1 (base + δ)
    capacity_delta := δ
    stress_index := compute_weighted_stress (riskRows tasks (max 1 (base + δ)) horizon)
    expected_loss_hours :=
      round1R (((riskRows tasks (max 1 (base + δ)) horizon).map
        (fun r => r.expected_loss_hours)).sum)
    high_risk_tasks_pct :=
      round1R ((((riskRows tasks (max 1 (base + δ)) horizon).countP
          (fun r => decide ((0.7 : ℝ) ≤ r.failure_probability)) : ℝ) /
        ((riskRows tasks (max 1 (base + δ)) horizon).length : ℝ)) * 100) }

def fcLE (a b : ForecastRow) : Prop :=
  a.capacity_hours_per_day ≤ b.capacity_hours_per_day

instance : DecidableRel fcLE := fun a b => inferInstanceAs (Decidable (_ ≤ _))

instance : IsTotal ForecastRow fcLE := ⟨fun a b => le_total _ _⟩

instance : IsTrans ForecastRow fcLE := ⟨fun _ _ _ h1 h2 => le_trans h1 h2⟩

def defaultScenarios : List ℚ := [-2, -1, 0, 1, 2]

/-- `forecast_system_risk`: one row per capacity delta, sorted ascending by
the resulting capacity (`sort_values("capacity_hours_per_day")`). -/
noncomputable def forecast_system_risk (tasks : List Task) (base : ℚ) (horizon : ℤ)
    (scenarios : List ℚ) : List ForecastRow :=
  List.insertionSort fcLE (scenarios.map (forecastRow tasks horizon base))

/-- Modelled from the claim's words for C3 (step 5 of the spec's §4.2):
`max(0, (Σ_{j : days_left_j ≤ days_left_i} est_hours_j) /
capacity_before_deadline_i − 1)` — the denominator carries no epsilon
guard, unlike the source. -/
def competition_pressure_spec (clipped : List Task) (cap : ℚ) (horizon : ℤ)
    (t : Task) : ℚ :=
  max 0 (competingHours clipped t / capacityBD cap horizon t - 1)

theorem riskRows_length (tasks : List Task) (cap : ℚ) (horizon : ℤ) :
    (riskRows tasks cap horizon).length = tasks.length := by
  simp [riskRows]

theorem riskRows_get (tasks : List Task) (cap : ℚ) (horizon : ℤ) (i : ℕ)
    (hi : i < tasks.length) :
    (riskRows tasks cap horizon).get ⟨i, by simpa [riskRows_length]⟩ =
      mkRiskRow (tasks.map clipTask) cap horizon (clipTask (tasks.get ⟨i, hi⟩)) := by
  simp [riskRows]

theorem rowAt_eq (tasks : List Task) (cap : ℚ) (horizon : ℤ) (i : ℕ)
    (hi : i < tasks.length) :
    rowAt tasks cap horizon i =
      mkRiskRow (tasks.map clipTask) cap horizon (clipTask (tasks.get ⟨i, hi⟩)) := by
  rw [rowAt, List.getD_eq_getElem _ _ (by simpa [riskRows_length])]
  exact riskRows_get tasks cap horizon i hi

/-! ### Scheduler (`src/scheduler.py`)

`build_schedule` receives a scored table; the `failure_probability` column
may be absent (`hasFP = false`), in which case `fp_lookup` stays the empty
dict and `.get(name, 0.0)` always answers `0`.  The two Python dicts
(`remaining`, `fp_lookup`) become functions `String → ℚ` built by the same
iteration order (later rows overwrite).  The display string
`", ".join(f"{t} ({h}h)" ...)` is kept as the list of pairs it is joined
from. -/

structure SchedTask where
  name : String
  days_left : ℤ
  est_hours : ℚ
  priority_score : ℚ
  failure_probability : ℚ
deriving Repr, DecidableEq, Inhabited

structure AllocEntry where
  task : String
  day : ℕ
  hours : ℚ
  failure_probability : ℚ
  deadline_day : ℤ
deriving Repr, DecidableEq, Inhabited

structure DayRow where
  day : ℕ
  allocated_hours : ℚ
  remaining_capacity : ℚ
  allocations : List (String × ℚ)
  overload_hours : ℚ
deriving Repr, DecidableEq, Inhabited

structure DeadlineRisk where
  task : String
  unfinished_hours : ℚ
  deadline_day : ℤ
deriving Repr, DecidableEq, Inhabited

/-- Academic / default ordering: `sort_values(["days_left", "est_hours"])`,
ascending lexicographically. -/
def edfLE (a b : SchedTask) : Prop :=
  a.days_left < b.days_left ∨ (a.days_left = b.days_left ∧ a.est_hours ≤ b.est_hours)

instance : DecidableRel edfLE := fun _ _ => inferInstanceAs (Decidable (_ ∨ _))

/-- Operational value density: `priority_score / est_hours.clip(lower=0.1)`. -/
def vdOf (t : SchedTask) : ℚ := t.priority_score / max (1/10) t.est_hours

/-- Operational ordering: `sort_values("_vd", ascending=False)`. -/
def vdGE (a b : SchedTask) : Prop := vdOf b ≤ vdOf a

instance : DecidableRel vdGE := fun _ _ => inferInstanceAs (Decidable (_ ≤ _))

def sortTasks (mode : String) (tasks : List SchedTask) : List SchedTask :=
  if mode = "Operational" then List.insertionSort vdGE tasks
  else List.insertionSort edfLE tasks

/-- Pointwise update, i.e. Python `d[k] = v`. -/
def updF (f : String → ℚ) (k : String) (v : ℚ) : String → ℚ :=
  fun n => if n = k then v else f n

/-- Builds a `name ↦ value` dict by row iteration (later rows overwrite);
absent names answer `0`, which is also `.get(name, 0.0)`'s default. -/
def dictOf (g : SchedTask → ℚ) (l : List SchedTask) : String → ℚ :=
  l.foldl (fun f t => updF f t.name (g t)) (fun _ => 0)

def remaining0 (l : List SchedTask) : String → ℚ := dictOf SchedTask.est_hours l

def fpLookup (l : List SchedTask) (hasFP : Bool) : String → ℚ :=
  if hasFP then dictOf SchedTask.failure_probability l else fun _ => 0

structure DayState where
  capLeft : ℚ
  rem : String → ℚ
  evs : List (String × ℚ)
  log : List AllocEntry

/-- One iteration of the inner `for _, row in tasks.iterrows()` loop.  The
source `break`s out of the loop once `cap_left <= 0`; after that point every
later iteration has `take = min(cap_left, remaining) ≤ 0` and so fails the
`take > 0` guard, changing nothing — dropping the break is
output-equivalent. -/
def stepTask (fp : String → ℚ) (day : ℕ) (st : DayState) (t : SchedTask) : DayState :=
  if st.rem t.name ≤ 0 then st
  else if (day : ℤ) > t.days_left then st
  else if 0 < min st.capLeft (st.rem t.name) then
    { capLeft := st.capLeft - min st.capLeft (st.rem t.name)
      rem := updF st.rem t.name (st.rem t.name - min st.capLeft (st.rem t.name))
      evs := st.evs ++ [(t.name, min st.capLeft (st.rem t.name))]
      log := st.log ++ [{ task := t.name
                          day := day
                          hours := round2 (min st.capLeft (st.rem t.name))
                          failure_probability := fp t.name
                          deadline_day := t.days_left }] }
  else st

def runDay (fp : String → ℚ) (dc : ℚ) (sorted : List SchedTask) (day : ℕ)
    (rem : String → ℚ) : DayState :=
  sorted.foldl (stepTask fp day) { capLeft := dc, rem := rem, evs := [], log := [] }

def mkDayRow (dc : ℚ) (day : ℕ) (st : DayState) : DayRow :=
  { day := day
    allocated_hours := round2 (dc - st.capLeft)
    remaining_capacity := round2 st.capLeft
    allocations := st.evs.map (fun e => (e.1, round2 e.2))
    overload_hours := round2 (max 0 (round2 (dc - st.capLeft) - dc)) }

structure SchedRun where
  days : List DayRow
  log : List AllocEntry
  events : List (ℕ × List (String × ℚ))
  remFinal : String → ℚ

/-- The `for day in range(1, horizon_days + 1)` loop, recursing on the
number of days still to run.  `events` records the exact (unrounded) hours
each allocation granted, day by day; the row and log fields round them as
the source does. -/
def runLoop (fp : String → ℚ) (dc : ℚ) (sorted : List SchedTask) :
    ℕ → ℕ → (String → ℚ) → SchedRun
  | _, 0, rem => ⟨[], [], [], rem⟩
  | day, n + 1, rem =>
    let st := runDay fp dc sorted day rem
    let rest := runLoop fp dc sorted (day + 1) n st.rem
    ⟨mkDayRow dc day st :: rest.days, st.log ++ rest.log, (day, st.evs) :: rest.events,
      rest.remFinal⟩

def deadlineRisks (sorted : List SchedTask) (remFinal : String → ℚ) :
    List DeadlineRisk :=
  sorted.filterMap (fun t =>
    if 0 < remFinal t.name then
      some { task := t.name
             unfinished_hours := round2 (remFinal t.name)
             deadline_day := t.days_left }
    else none)

def schedRun (tasks : List SchedTask) (dc : ℚ) (horizon : ℕ) (mode : String)
    (hasFP : Bool) : SchedRun :=
  runLoop (fpLookup (sortTasks mode tasks) hasFP) dc (sortTasks mode tasks) 1 horizon
    (remaining0 (sortTasks mode tasks))

structure Schedule where
  days : List DayRow
  log : List AllocEntry
  risks : List DeadlineRisk

/-- `build_schedule`: ledger rows, the allocation log (`attrs`), and the
deadline risks (`attrs`). -/
def build_schedule (tasks : List SchedTask) (dc : ℚ) (horizon : ℕ) (mode : String)
    (hasFP : Bool) : Schedule :=
  { days := (schedRun tasks dc horizon mode hasFP).days
    log := (schedRun tasks dc horizon mode hasFP).log
    risks := deadlineRisks (sortTasks mode tasks)
      (schedRun tasks dc horizon mode hasFP).remFinal }

/-- The exact hours granted, day by day. -/
def scheduleEvents (tasks : List SchedTask) (dc : ℚ) (horizon : ℕ) (mode : String)
    (hasFP : Bool) : List (ℕ × List (String × ℚ)) :=
  (schedRun tasks dc horizon mode hasFP).events

/-- Exact hours granted to `name` within one day's event list. -/
def sumFor (name : String) (evs : List (String × ℚ)) : ℚ :=
  ((evs.filter (fun e => decide (e.1 = name))).map Prod.snd).sum

/-- Total exact hours granted to `name` across the whole run. -/
def totalAllocated (tasks : List SchedTask) (dc : ℚ) (horizon : ℕ) (mode : String)
    (hasFP : Bool) (name : String) : ℚ :=
  ((scheduleEvents tasks dc horizon mode hasFP).map (fun de => sumFor name de.2)).sum

/-- `e.2` hours of one day's events, summed. -/
def evsSum (evs : List (String × ℚ)) : ℚ := (evs.map Prod.snd).sum

def zeroFP (e : AllocEntry) : AllocEntry := { e with failure_probability := 0 }

/-! #### Scheduler invariants -/

theorem evsSum_append_one (l : List (String × ℚ)) (e : String × ℚ) :
    evsSum (l ++ [e]) = evsSum l + e.2 := by
  simp [evsSum]

theorem sumFor_append_one (n : String) (l : List (String × ℚ)) (e : String × ℚ) :
    sumFor n (l ++ [e]) = sumFor n l + (if e.1 = n then e.2 else 0) := by
  by_cases h : e.1 = n <;> simp [sumFor, h]

theorem stepTask_capLeft_nonneg (fp : String → ℚ) (day : ℕ) (st : DayState)
    (t : SchedTask) (h : 0 ≤ st.capLeft) : 0 ≤ (stepTask fp day st t).capLeft := by
  unfold stepTask
  split_ifs with h1 h2 h3
  · exact h
  · exact h
  · show 0 ≤ st.capLeft - min st.capLeft (st.rem t.name)
    have := min_le_left st.capLeft (st.rem t.name)
    linarith
  · exact h

theorem stepTask_cap_evs (fp : String → ℚ) (day : ℕ) (st : DayState) (t : SchedTask) :
    (stepTask fp day st t).capLeft + evsSum (stepTask fp day st t).evs
      = st.capLeft + evsSum st.evs := by
  unfold stepTask
  split_ifs with h1 h2 h3
  · rfl
  · rfl
  · show st.capLeft - min st.capLeft (st.rem t.name)
      + evsSum (st.evs ++ [(t.name, min st.capLeft (st.rem t.name))])
      = st.capLeft + evsSum st.evs
    rw [evsSum_append_one]
    ring
  · rfl

theorem stepTask_rem_sumFor (fp : String → ℚ) (day : ℕ) (st : DayState) (t : SchedTask)
    (n : String) :
    (stepTask fp day st t).rem n + sumFor n (stepTask fp day st t).evs
      = st.rem n + sumFor n st.evs := by
  unfold stepTask
  split_ifs with h1 h2 h3
  · rfl
  · rfl
  · show updF st.rem t.name (st.rem t.name - min st.capLeft (st.rem t.name)) n
      + sumFor n (st.evs ++ [(t.name, min st.capLeft (st.rem t.name))])
      = st.rem n + sumFor n st.evs
    rw [sumFor_append_one, updF]
    by_cases h : n = t.name
    · subst h
      rw [if_pos rfl, if_pos rfl]
      ring
    · have h' : ¬ t.name = n := fun hh => h hh.symm
      rw [if_neg h, if_neg h']
      ring
  · rfl

theorem stepTask_rem_nonneg (fp : String → ℚ) (day : ℕ) (st : DayState) (t : SchedTask)
    (h : ∀ n, 0 ≤ st.rem n) : ∀ n, 0 ≤ (stepTask fp day st t).rem n := by
  intro n
  unfold stepTask
  split_ifs with h1 h2 h3
  · exact h n
  · exact h n
  · show 0 ≤ updF st.rem t.name (st.rem t.name - min st.capLeft (st.rem t.name)) n
    rw [updF]
    by_cases hn : n = t.name
    · rw [if_pos hn]
      have := min_le_right st.capLeft (st.rem t.name)
      linarith
    · rw [if_neg hn]
      exact h n
  · exact h n

theorem foldl_capLeft_nonneg (fp : String → ℚ) (day : ℕ) :
    ∀ (l : List SchedTask) (st : DayState), 0 ≤ st.capLeft →
      0 ≤ (l.foldl (stepTask fp day) st).capLeft := by
  intro l
  induction l with
  | nil => intro st h; exact h
  | cons t l ih =>
    intro st h
    rw [List.foldl_cons]
    exact ih _ (stepTask_capLeft_nonneg fp day st t h)

theorem foldl_cap_evs (fp : String → ℚ) (day : ℕ) :
    ∀ (l : List SchedTask) (st : DayState),
      (l.foldl (stepTask fp day) st).capLeft + evsSum (l.foldl (stepTask fp day) st).evs
        = st.capLeft + evsSum st.evs := by
  intro l
  induction l with
  | nil => intro st; rfl
  | cons t l ih =>
    intro st
    rw [List.foldl_cons, ih, stepTask_cap_evs]

theorem foldl_rem_sumFor (fp : String → ℚ) (day : ℕ) (n : String) :
    ∀ (l : List SchedTask) (st : DayState),
      (l.foldl (stepTask fp day) st).rem n + sumFor n (l.foldl (stepTask fp day) st).evs
        = st.rem n + sumFor n st.evs := by
  intro l
  induction l with
  | nil => intro st; rfl
  | cons t l ih =>
    intro st
    rw [List.foldl_cons, ih, stepTask_rem_sumFor]

theorem foldl_rem_nonneg (fp : String → ℚ) (day : ℕ) :
    ∀ (l : List SchedTask) (st : DayState), (∀ n, 0 ≤ st.rem n) →
      ∀ n, 0 ≤ (l.foldl (stepTask fp day) st).rem n := by
  intro l
  induction l with
  | nil => intro st h; exact h
  | cons t l ih =>
    intro st h
    rw [List.foldl_cons]
    exact ih _ (stepTask_rem_nonneg fp day st t h)

theorem runDay_capLeft_nonneg (fp : String → ℚ) (dc : ℚ) (sorted : List SchedTask)
    (day : ℕ) (rem : String → ℚ) (h : 0 ≤ dc) :
    0 ≤ (runDay fp dc sorted day rem).capLeft :=
  foldl_capLeft_nonneg fp day sorted _ h

theorem runDay_evsSum (fp : String → ℚ) (dc : ℚ) (sorted : List SchedTask)
    (day : ℕ) (rem : String → ℚ) :
    (runDay fp dc sorted day rem).capLeft + evsSum (runDay fp dc sorted day rem).evs
      = dc := by
  have h := foldl_cap_evs fp day sorted
    { capLeft := dc, rem := rem, evs := [], log := [] }
  simpa [runDay, evsSum] using h

theorem runDay_rem_sumFor (fp : String → ℚ) (dc : ℚ) (sorted : List SchedTask)
    (day : ℕ) (rem : String → ℚ) (n : String) :
    (runDay fp dc sorted day rem).rem n + sumFor n (runDay fp dc sorted day rem).evs
      = rem n := by
  have h := foldl_rem_sumFor fp day n sorted
    { capLeft := dc, rem := rem, evs := [], log := [] }
  simpa [runDay, sumFor] using h

theorem runDay_rem_nonneg (fp : String → ℚ) (dc : ℚ) (sorted : List SchedTask)
    (day : ℕ) (rem : String → ℚ) (h : ∀ n, 0 ≤ rem n) :
    ∀ n, 0 ≤ (runDay fp dc sorted day rem).rem n :=
  foldl_rem_nonneg fp day sorted _ h

theorem runLoop_days_length (fp : String → ℚ) (dc : ℚ) (sorted : List SchedTask) :
    ∀ (n day : ℕ) (rem : String → ℚ),
      (runLoop fp dc sorted day n rem).days.length = n := by
  intro n
  induction n with
  | zero => intro day rem; rfl
  | succ n ih =>
    intro day rem
    show (mkDayRow dc day _ :: _).length = n + 1
    rw [List.length_cons, ih]

theorem runLoop_events_length (fp : String → ℚ) (dc : ℚ) (sorted : List SchedTask) :
    ∀ (n day : ℕ) (rem : String → ℚ),
      (runLoop fp dc sorted day n rem).events.length = n := by
  intro n
  induction n with
  | zero => intro day rem; rfl
  | succ n ih =>
    intro day rem
    show ((day, _) :: _).length = n + 1
    rw [List.length_cons, ih]

/-- The `i`-th day row and event entry both come from the same `runDay` on
the same intermediate `remaining` dict. -/
theorem runLoop_get (fp : String → ℚ) (dc : ℚ) (sorted : List SchedTask) :
    ∀ (n day : ℕ) (rem : String → ℚ) (i : ℕ), i < n →
      ∃ r : String → ℚ,
        (runLoop fp dc sorted day n rem).days[i]? =
          some (mkDayRow dc (day + i) (runDay fp dc sorted (day + i) r)) ∧
        (runLoop fp dc sorted day n rem).events[i]? =
          some (day + i, (runDay fp dc sorted (day + i) r).evs) := by
  intro n
  induction n with
  | zero => intro day rem i hi; omega
  | succ n ih =>
    intro day rem i hi
    match i with
    | 0 =>
      refine ⟨rem, ?_, ?_⟩ <;> simp [runLoop]
    | i + 1 =>
      obtain ⟨r, h1, h2⟩ := ih (day + 1) (runDay fp dc sorted day rem).rem i (by omega)
      have hd : day + 1 + i = day + (i + 1) := by omega
      rw [hd] at h1 h2
      exact ⟨r, by simpa [runLoop] using h1, by simpa [runLoop] using h2⟩

theorem runLoop_rem_total (fp : String → ℚ) (dc : ℚ) (sorted : List SchedTask)
    (n0 : String) :
    ∀ (n day : ℕ) (rem : String → ℚ),
      (runLoop fp dc sorted day n rem).remFinal n0
        + ((runLoop fp dc sorted day n rem).events.map (fun de => sumFor n0 de.2)).sum
        = rem n0 := by
  intro n
  induction n with
  | zero => intro day rem; simp [runLoop]
  | succ n ih =>
    intro day rem
    show (runLoop fp dc sorted (day + 1) n (runDay fp dc sorted day rem).rem).remFinal n0
        + ((((day, (runDay fp dc sorted day rem).evs)) ::
            (runLoop fp dc sorted (day + 1) n (runDay fp dc sorted day rem).rem).events).map
              (fun de => sumFor n0 de.2)).sum
        = rem n0
    rw [List.map_cons, List.sum_cons]
    have h1 := ih (day + 1) (runDay fp dc sorted day rem).rem
    have h2 := runDay_rem_sumFor fp dc sorted day rem n0
    linarith

theorem runLoop_rem_nonneg (fp : String → ℚ) (dc : ℚ) (sorted : List SchedTask) :
    ∀ (n day : ℕ) (rem : String → ℚ), (∀ n0, 0 ≤ rem n0) →
      ∀ n0, 0 ≤ (runLoop fp dc sorted day n rem).remFinal n0 := by
  intro n
  induction n with
  | zero => intro day rem h n0; exact h n0
  | succ n ih =>
    intro day rem h n0
    exact ih (day + 1) _ (runDay_rem_nonneg fp dc sorted day rem h) n0

/-! #### Dict lemmas -/

theorem foldl_updF_eq (g : SchedTask → ℚ) :
    ∀ (l : List SchedTask) (f0 : String → ℚ) (n : String), (∀ u ∈ l, u.name ≠ n) →
      (l.foldl (fun f t => updF f t.name (g t)) f0) n = f0 n := by
  intro l
  induction l with
  | nil => intro f0 n _; rfl
  | cons u l ih =>
    intro f0 n h
    rw [List.foldl_cons, ih _ n (fun v hv => h v (List.mem_cons_of_mem u hv))]
    rw [updF, if_neg (fun hn => h u (List.mem_cons_self u l) hn.symm)]

theorem foldl_updF_lookup (g : SchedTask → ℚ) :
    ∀ (l : List SchedTask) (f0 : String → ℚ), (l.map SchedTask.name).Nodup →
      ∀ t ∈ l, (l.foldl (fun f u => updF f u.name (g u)) f0) t.name = g t := by
  intro l
  induction l with
  | nil => intro f0 _ t ht; exact absurd ht (List.not_mem_nil t)
  | cons u l ih =>
    intro f0 hnd t ht
    have hnd' := hnd
    rw [List.map_cons, List.nodup_cons] at hnd'
    rcases List.mem_cons.mp ht with rfl | htl
    · rw [List.foldl_cons]
      rw [foldl_updF_eq g l _ t.name
        (fun v hv hveq => hnd'.1 (hveq ▸ List.mem_map_of_mem SchedTask.name hv))]
      rw [updF, if_pos rfl]
    · rw [List.foldl_cons]
      exact ih _ hnd'.2 t htl

theorem dictOf_lookup (g : SchedTask → ℚ) (l : List SchedTask)
    (hnd : (l.map SchedTask.name).Nodup) (t : SchedTask) (ht : t ∈ l) :
    dictOf g l t.name = g t :=
  foldl_updF_lookup g l _ hnd t ht

theorem foldl_updF_nonneg (g : SchedTask → ℚ) :
    ∀ (l : List SchedTask) (f0 : String → ℚ), (∀ u ∈ l, 0 ≤ g u) →
      (∀ n, 0 ≤ f0 n) → ∀ n, 0 ≤ (l.foldl (fun f t => updF f t.name (g t)) f0) n := by
  intro l
  induction l with
  | nil => intro f0 _ h0 n; exact h0 n
  | cons u l ih =>
    intro f0 h h0 n
    rw [List.foldl_cons]
    refine ih _ (fun v hv => h v (List.mem_cons_of_mem u hv)) ?_ n
    intro m
    rw [updF]
    by_cases hm : m = u.name
    · rw [if_pos hm]; exact h u (List.mem_cons_self u l)
    · rw [if_neg hm]; exact h0 m

theorem dictOf_nonneg (g : SchedTask → ℚ) (l : List SchedTask)
    (h : ∀ u ∈ l, 0 ≤ g u) : ∀ n, 0 ≤ dictOf g l n :=
  foldl_updF_nonneg g l _ h (fun _ => le_refl 0)

/-! #### Deadline-risk uniqueness -/

theorem deadlineRisks_filter_nil (rem : String → ℚ) (nm : String) :
    ∀ (l : List SchedTask), (∀ u ∈ l, u.name ≠ nm) →
      (deadlineRisks l rem).filter (fun r => decide (r.task = nm)) = [] := by
  intro l
  induction l with
  | nil => intro _; rfl
  | cons u l ih =>
    intro h
    rw [deadlineRisks, List.filterMap_cons]
    by_cases hu : 0 < rem u.name
    · rw [if_pos hu, List.filter_cons]
      have hne : ¬ (u.name = nm) := h u (List.mem_cons_self u l)
      rw [if_neg (by simp [hne])]
      exact ih (fun v hv => h v (List.mem_cons_of_mem u hv))
    · rw [if_neg hu]
      exact ih (fun v hv => h v (List.mem_cons_of_mem u hv))

theorem deadlineRisks_filter_unique (rem : String → ℚ) :
    ∀ (l : List SchedTask), (l.map SchedTask.name).Nodup →
      ∀ t ∈ l, 0 < rem t.name →
        (deadlineRisks l rem).filter (fun r => decide (r.task = t.name)) =
          [{ task := t.name, unfinished_hours := round2 (rem t.name),
             deadline_day := t.days_left }] := by
  intro l
  induction l with
  | nil => intro _ t ht; exact absurd ht (List.not_mem_nil t)
  | cons u l ih =>
    intro hnd t ht hrem
    have hnd' := hnd
    rw [List.map_cons, List.nodup_cons] at hnd'
    rcases List.mem_cons.mp ht with rfl | htl
    · rw [deadlineRisks, List.filterMap_cons, if_pos hrem, List.filter_cons]
      rw [if_pos (by simp)]
      rw [show (List.filterMap _ l) = deadlineRisks l rem from rfl]
      rw [deadlineRisks_filter_nil rem t.name l
        (fun v hv hveq => hnd'.1 (hveq ▸ List.mem_map_of_mem SchedTask.name hv))]
    · have hunm : ¬ (u.name = t.name) := by
        intro hh
        exact hnd'.1 (hh ▸ List.mem_map_of_mem SchedTask.name htl)
      rw [deadlineRisks, List.filterMap_cons]
      by_cases hu : 0 < rem u.name
      · rw [if_pos hu, List.filter_cons]
        rw [if_neg (by simp [hunm])]
        exact ih hnd'.2 t htl hrem
      · rw [if_neg hu]
        exact ih hnd'.2 t htl hrem

theorem round2_le_add (x : ℚ) : round2 x ≤ x + 1/200 := by
  have := abs_round2_sub_le x
  rw [abs_le] at this
  linarith [this.2]

theorem sortTasks_perm (mode : String) (tasks : List SchedTask) :
    (sortTasks mode tasks).Perm tasks := by
  unfold sortTasks
  split_ifs <;> exact List.perm_insertionSort _ _

theorem build_schedule_days_length (tasks : List SchedTask) (dc : ℚ) (horizon : ℕ)
    (mode : String) (hasFP : Bool) :
    (build_schedule tasks dc horizon mode hasFP).days.length = horizon :=
  runLoop_days_length _ _ _ _ _ _

theorem getD_of_getElemOpt {α : Type} {l : List α} {i : ℕ} {a : α}
    (hi : i < l.length) (h : l[i]? = some a) (d : α) : l.getD i d = a := by
  rw [List.getD_eq_getElem l d hi]
  rw [List.getElem?_eq_getElem hi] at h
  exact Option.some.inj h

/-- C5: for every scheduler run with `daily_capacity > 0` (any task table,
either mode) and every day of the schedule, the exact hours allocated
across tasks that day sum to at most `daily_capacity`, and the day row's
`overload_hours` field is `0`. -/
theorem schedule_day_facts (tasks : List SchedTask) (dc : ℚ) (horizon : ℕ)
    (mode : String) (hasFP : Bool) (i : ℕ) (hdc : 0 < dc) (hi : i < horizon) :
    evsSum ((scheduleEvents tasks dc horizon mode hasFP).getD i (0, [])).2 ≤ dc ∧
    ((build_schedule tasks dc horizon mode hasFP).days.getD i default).overload_hours
      = 0 := by
  obtain ⟨r, h1, h2⟩ := runLoop_get (fpLookup (sortTasks mode tasks) hasFP) dc
    (sortTasks mode tasks) horizon 1 (remaining0 (sortTasks mode tasks)) i hi
  have hlen : (build_schedule tasks dc horizon mode hasFP).days.length = horizon :=
    build_schedule_days_length tasks dc horizon mode hasFP
  have helen : (scheduleEvents tasks dc horizon mode hasFP).length = horizon :=
    runLoop_events_length _ _ _ _ _ _
  have h1' : (build_schedule tasks dc horizon mode hasFP).days[i]? =
      some (mkDayRow dc (1 + i)
        (runDay (fpLookup (sortTasks mode tasks) hasFP) dc (sortTasks mode tasks)
          (1 + i) r)) := h1
  have h2' : (scheduleEvents tasks dc horizon mode hasFP)[i]? =
      some (1 + i, (runDay (fpLookup (sortTasks mode tasks) hasFP) dc
        (sortTasks mode tasks) (1 + i) r).evs) := h2
  have hd : (build_schedule tasks dc horizon mode hasFP).days.getD i default =
      mkDayRow dc (1 + i)
        (runDay (fpLookup (sortTasks mode tasks) hasFP) dc (sortTasks mode tasks)
          (1 + i) r) :=
    getD_of_getElemOpt (by omega) h1' default
  have he : (scheduleEvents tasks dc horizon mode hasFP).getD i (0, []) =
      (1 + i, (runDay (fpLookup (sortTasks mode tasks) hasFP) dc (sortTasks mode tasks)
        (1 + i) r).evs) :=
    getD_of_getElemOpt (by omega) h2' (0, [])
  set st := runDay (fpLookup (sortTasks mode tasks) hasFP) dc (sortTasks mode tasks)
    (1 + i) r with hst
  have hcap : 0 ≤ st.capLeft := runDay_capLeft_nonneg _ _ _ _ _ (le_of_lt hdc)
  have hsum : st.capLeft + evsSum st.evs = dc := runDay_evsSum _ _ _ _ _
  constructor
  · rw [he]
    show evsSum st.evs ≤ dc
    linarith
  · rw [hd]
    show round2 (max 0 (round2 (dc - st.capLeft) - dc)) = 0
    have hr2 : round2 (dc - st.capLeft) ≤ (dc - st.capLeft) + 1/200 :=
      round2_le_add _
    apply round2_eq_zero (le_max_left _ _)
    rw [max_le_iff]
    constructor <;> linarith

/-- C6 (amended): for distinct task names and nonnegative estimates, a
task's exact allocated total never exceeds its estimate, and an unfinished
task appears exactly once among the deadline risks, carrying the rounded
unfinished hours and its deadline day. -/
theorem schedule_work_facts (tasks : List SchedTask) (dc : ℚ) (horizon : ℕ)
    (mode : String) (hasFP : Bool) (t : SchedTask)
    (hnd : (tasks.map SchedTask.name).Nodup)
    (hest : ∀ u ∈ tasks, 0 ≤ u.est_hours)
    (ht : t ∈ tasks) :
    totalAllocated tasks dc horizon mode hasFP t.name ≤ t.est_hours ∧
    (totalAllocated tasks dc horizon mode hasFP t.name < t.est_hours →
      ((build_schedule tasks dc horizon mode hasFP).risks.filter
          (fun r => decide (r.task = t.name))) =
        [{ task := t.name
           unfinished_hours :=
             round2 (t.est_hours - totalAllocated tasks dc horizon mode hasFP t.name)
           deadline_day := t.days_left }]) := by
  have hperm := sortTasks_perm mode tasks
  have hndS : ((sortTasks mode tasks).map SchedTask.name).Nodup :=
    ((hperm.map SchedTask.name).nodup_iff).mpr hnd
  have htS : t ∈ sortTasks mode tasks := hperm.mem_iff.mpr ht
  have hestS : ∀ u ∈ sortTasks mode tasks, 0 ≤ u.est_hours :=
    fun u hu => hest u (hperm.mem_iff.mp hu)
  have hrem0 : remaining0 (sortTasks mode tasks) t.name = t.est_hours :=
    dictOf_lookup _ _ hndS t htS
  have hrem0n : ∀ n, 0 ≤ remaining0 (sortTasks mode tasks) n :=
    dictOf_nonneg _ _ hestS
  have htot : (schedRun tasks dc horizon mode hasFP).remFinal t.name
      + totalAllocated tasks dc horizon mode hasFP t.name = t.est_hours := by
    rw [← hrem0]
    exact runLoop_rem_total _ _ _ _ _ _ _
  have hfin : 0 ≤ (schedRun tasks dc horizon mode hasFP).remFinal t.name :=
    runLoop_rem_nonneg _ _ _ _ _ _ hrem0n t.name
  constructor
  · linarith
  · intro hlt
    have hpos : 0 < (schedRun tasks dc horizon mode hasFP).remFinal t.name := by
      linarith
    have := deadlineRisks_filter_unique
      (schedRun tasks dc horizon mode hasFP).remFinal (sortTasks mode tasks)
      hndS t htS hpos
    have hrw : (schedRun tasks dc horizon mode hasFP).remFinal t.name =
        t.est_hours - totalAllocated tasks dc horizon mode hasFP t.name := by
      linarith
    rw [hrw] at this
    exact this

theorem stepTask_fp_erase (fpT : String → ℚ) (day : ℕ) (t : SchedTask)
    (st : DayState) :
    stepTask (fun _ => 0) day ⟨st.capLeft, st.rem, st.evs, st.log.map zeroFP⟩ t =
      ⟨(stepTask fpT day st t).capLeft, (stepTask fpT day st t).rem,
        (stepTask fpT day st t).evs, (stepTask fpT day st t).log.map zeroFP⟩ := by
  unfold stepTask
  dsimp only
  split_ifs with h1 h2 h3
  · rfl
  · rfl
  · simp [zeroFP]
  · rfl

theorem foldl_fp_erase (fpT : String → ℚ) (day : ℕ) :
    ∀ (l : List SchedTask) (st : DayState),
      l.foldl (stepTask (fun _ => 0) day) ⟨st.capLeft, st.rem, st.evs, st.log.map zeroFP⟩
        = ⟨(l.foldl (stepTask fpT day) st).capLeft,
           (l.foldl (stepTask fpT day) st).rem,
           (l.foldl (stepTask fpT day) st).evs,
           (l.foldl (stepTask fpT day) st).log.map zeroFP⟩ := by
  intro l
  induction l with
  | nil => intro st; rfl
  | cons u l ih =>
    intro st
    rw [List.foldl_cons, List.foldl_cons, stepTask_fp_erase fpT day u st]
    exact ih (stepTask fpT day st u)

theorem runDay_fp_erase (fpT : String → ℚ) (dc : ℚ) (sorted : List SchedTask)
    (day : ℕ) (rem : String → ℚ) :
    runDay (fun _ => 0) dc sorted day rem =
      ⟨(runDay fpT dc sorted day rem).capLeft, (runDay fpT dc sorted day rem).rem,
       (runDay fpT dc sorted day rem).evs,
       (runDay fpT dc sorted day rem).log.map zeroFP⟩ := by
  have h := foldl_fp_erase fpT day sorted { capLeft := dc, rem := rem, evs := [], log := [] }
  exact h

theorem runLoop_fp_erase (fpT : String → ℚ) (dc : ℚ) (sorted : List SchedTask) :
    ∀ (n day : ℕ) (rem : String → ℚ),
      runLoop (fun _ => 0) dc sorted day n rem =
        ⟨(runLoop fpT dc sorted day n rem).days,
         (runLoop fpT dc sorted day n rem).log.map zeroFP,
         (runLoop fpT dc sorted day n rem).events,
         (runLoop fpT dc sorted day n rem).remFinal⟩ := by
  intro n
  induction n with
  | zero => intro day rem; rfl
  | succ n ih =>
    intro day rem
    show (⟨mkDayRow dc day (runDay (fun _ => 0) dc sorted day rem) ::
        (runLoop (fun _ => 0) dc sorted (day + 1) n
          (runDay (fun _ => 0) dc sorted day rem).rem).days, _, _, _⟩ : SchedRun) = _
    rw [runDay_fp_erase fpT dc sorted day rem]
    rw [ih (day + 1) (runDay fpT dc sorted day rem).rem]
    show (⟨_, (runDay fpT dc sorted day rem).log.map zeroFP ++
        (runLoop fpT dc sorted (day + 1) n (runDay fpT dc sorted day rem).rem).log.map
          zeroFP, _, _⟩ : SchedRun) = _
    simp only [runLoop, ← List.map_append]
    rfl

/-- C10: on a task table without the `failure_probability` column,
`build_schedule` does not fail: the day ledger and the deadline risks are
identical to a run with the column present, the allocation log matches it
entry for entry apart from the probability field, and every log entry
reports `failure_probability = 0.0`. -/
theorem build_schedule_without_fp_column (tasks : List SchedTask) (dc : ℚ)
    (horizon : ℕ) (mode : String) :
    (build_schedule tasks dc horizon mode false).days
      = (build_schedule tasks dc horizon mode true).days ∧
    (build_schedule tasks dc horizon mode false).risks
      = (build_schedule tasks dc horizon mode true).risks ∧
    (build_schedule tasks dc horizon mode false).log
      = (build_schedule tasks dc horizon mode true).log.map zeroFP ∧
    ∀ e ∈ (build_schedule tasks dc horizon mode false).log,
      e.failure_probability = 0 := by
  have hsched : schedRun tasks dc horizon mode false =
      ⟨(schedRun tasks dc horizon mode true).days,
       (schedRun tasks dc horizon mode true).log.map zeroFP,
       (schedRun tasks dc horizon mode true).events,
       (schedRun tasks dc horizon mode true).remFinal⟩ :=
    runLoop_fp_erase (fpLookup (sortTasks mode tasks) true) dc (sortTasks mode tasks)
      horizon 1 (remaining0 (sortTasks mode tasks))
  refine ⟨?_, ?_, ?_, ?_⟩
  · show (schedRun tasks dc horizon mode false).days
      = (schedRun tasks dc horizon mode true).days
    rw [hsched]
  · show deadlineRisks (sortTasks mode tasks)
        (schedRun tasks dc horizon mode false).remFinal
      = deadlineRisks (sortTasks mode tasks)
        (schedRun tasks dc horizon mode true).remFinal
    rw [hsched]
  · show (schedRun tasks dc horizon mode false).log
      = (schedRun tasks dc horizon mode true).log.map zeroFP
    rw [hsched]
  · intro e he
    have hlog : (schedRun tasks dc horizon mode false).log
        = (schedRun tasks dc horizon mode true).log.map zeroFP := by rw [hsched]
    have he' : e ∈ (schedRun tasks dc horizon mode true).log.map zeroFP := by
      rw [← hlog]; exact he
    obtain ⟨a, _, rfl⟩ := List.mem_map.mp he'
    rfl

/-- C4: for every valid task table (`strategic_importance` and
`business_impact` in 1–5), every output row has
`failure_probability ∈ [0,1]` and `impact_weight ∈ [0.1, 1.0]`. -/
theorem risk_row_bounds (tasks : List Task) (cap : ℚ) (horizon : ℤ) (i : ℕ)
    (hval : ∀ t ∈ tasks, 1 ≤ t.strategic_importance ∧ t.strategic_importance ≤ 5 ∧
      1 ≤ t.business_impact ∧ t.business_impact ≤ 5)
    (hi : i < tasks.length) :
    0 ≤ (rowAt tasks cap horizon i).failure_probability ∧
    (rowAt tasks cap horizon i).failure_probability ≤ 1 ∧
    1/10 ≤ (rowAt tasks cap horizon i).impact_weight ∧
    (rowAt tasks cap horizon i).impact_weight ≤ 1 := by
  rw [rowAt_eq tasks cap horizon i hi]
  obtain ⟨hs1, hs5, hb1, hb5⟩ := hval (tasks.get ⟨i, hi⟩) (tasks.get_mem i hi)
  refine ⟨?_, ?_, ?_, ?_⟩
  · show 0 ≤ clip01 (sigmoid _)
    rw [clip01]
    exact le_min (by norm_num) (le_max_left 0 _)
  · show clip01 (sigmoid _) ≤ 1
    exact min_le_left _ _
  · show 1/10 ≤ impactWeightOf (clipTask (tasks.get ⟨i, hi⟩))
    exact le_max_left _ _
  · show impactWeightOf (clipTask (tasks.get ⟨i, hi⟩)) ≤ 1
    rw [impactWeightOf]
    apply max_le (by norm_num)
    show (1/2 * (tasks.get ⟨i, hi⟩).strategic_importance
      + 1/2 * (tasks.get ⟨i, hi⟩).business_impact) / 5 ≤ 1
    linarith

/-- Nonnegativity of the competing-hours sum over the clipped table. -/
theorem competingHours_nonneg (tasks : List Task) (t : Task) :
    0 ≤ competingHours (tasks.map clipTask) t := by
  rw [competingHours]
  apply List.sum_nonneg
  intro q hq
  rw [List.mem_map] at hq
  obtain ⟨u, hu, rfl⟩ := hq
  have := List.mem_filter.mp hu
  rw [List.mem_map] at this
  obtain ⟨⟨v, _, rfl⟩, _⟩ := this
  show (0:ℚ) ≤ max 0 v.est_hours
  exact le_max_left 0 _

/-- C3 (amended): the competition pressure of row `i` is
`max(0, competing_hours / (capacity_before_deadline + 1e-9) − 1)` — the
denominator carries the source's epsilon guard; and it is `0` whenever the
competing hours do not exceed the window's capacity. -/
theorem competition_pressure_formula (tasks : List Task) (cap : ℚ) (horizon : ℤ)
    (i : ℕ) (hi : i < tasks.length) :
    (rowAt tasks cap horizon i).competition_pressure =
      max 0 (competingHours (tasks.map clipTask) (clipTask (tasks.getD i default)) /
        ((rowAt tasks cap horizon i).capacity_before_deadline + eps) - 1) ∧
    (competingHours (tasks.map clipTask) (clipTask (tasks.getD i default)) ≤
        (rowAt tasks cap horizon i).capacity_before_deadline →
      (rowAt tasks cap horizon i).competition_pressure = 0) := by
  have hgd : tasks.getD i default = tasks.get ⟨i, hi⟩ := by
    rw [List.getD_eq_getElem _ _ hi]
    rfl
  rw [rowAt_eq tasks cap horizon i hi, hgd]
  constructor
  · rfl
  · intro hle
    have hle' : competingHours (tasks.map clipTask) (clipTask (tasks.get ⟨i, hi⟩)) ≤
        capacityBD cap horizon (clipTask (tasks.get ⟨i, hi⟩)) := hle
    show compOf (tasks.map clipTask) cap horizon (clipTask (tasks.get ⟨i, hi⟩)) = 0
    rw [compOf]
    have hS := competingHours_nonneg tasks (clipTask (tasks.get ⟨i, hi⟩))
    have hC : 0 ≤ capacityBD cap horizon (clipTask (tasks.get ⟨i, hi⟩)) := by
      exact le_trans hS hle'
    have hpos : 0 < capacityBD cap horizon (clipTask (tasks.get ⟨i, hi⟩)) + eps := by
      rw [eps]; linarith
    have hdiv : competingHours (tasks.map clipTask) (clipTask (tasks.get ⟨i, hi⟩)) /
        (capacityBD cap horizon (clipTask (tasks.get ⟨i, hi⟩)) + eps) < 1 := by
      rw [div_lt_one hpos]
      rw [eps]
      linarith
    have : competingHours (tasks.map clipTask) (clipTask (tasks.get ⟨i, hi⟩)) /
        (capacityBD cap horizon (clipTask (tasks.get ⟨i, hi⟩)) + eps) - 1 ≤ 0 := by
      linarith
    exact max_eq_left this

/-- The single task of the C3 counterexample: two estimated hours due
tomorrow, capacity one hour per day. -/
def taskC3 : Task :=
  ⟨"t", 1, 2, 3, 3, false⟩

/-- C3 (counterexample): at the single task `taskC3` with capacity 1 and
horizon 1, the code's competition pressure is
`max(0, 2/(1+1e-9) − 1) ≠ 1 = max(0, 2/1 − 1)`, the epsilon-free value the
claim asserts. -/
theorem competition_pressure_epsilon_cex :
    (rowAt [taskC3] 1 1 0).competition_pressure ≠
      competition_pressure_spec ([taskC3].map clipTask) 1 1 (clipTask taskC3) := by
  rw [rowAt_eq _ _ _ 0 (by norm_num)]
  show compOf _ _ _ _ ≠ _
  rw [compOf, competition_pressure_spec]
  simp only [competingHours, capacityBD, windowOf, clipTask, taskC3, List.map_cons,
    List.map_nil, List.filter, eps]
  norm_num

/-- C8: a frame lacking `business_impact` (all other required columns
present) makes `compute_task_risk` raise the structural error naming that
column, and any frame missing any required column gets an error naming a
missing required column — never a partial result. -/
theorem missing_column_contract (cols : List String) (rows : List Task) (cap : ℚ)
    (horizon : ℤ) (df2 : RawFrame) (c : String)
    (hmiss : "business_impact" ∉ cols)
    (hname : "name" ∈ cols) (hdays : "days_left" ∈ cols) (hest : "est_hours" ∈ cols)
    (hstrat : "strategic_importance" ∈ cols)
    (hc : c ∈ required_cols) (hc2 : c ∉ df2.cols) :
    compute_task_risk ⟨cols, rows⟩ cap horizon =
      .error (.keyError "Missing required column: business_impact") ∧
    ∃ c2 ∈ required_cols, c2 ∉ df2.cols ∧
      compute_task_risk df2 cap horizon =
        .error (.keyError ("Missing required column: " ++ c2)) := by
  constructor
  · have hfind : findMissing cols = some "business_impact" := by
      rw [findMissing, required_cols]
      rw [List.find?_cons_of_neg _ (by simpa using hname)]
      rw [List.find?_cons_of_neg _ (by simpa using hdays)]
      rw [List.find?_cons_of_neg _ (by simpa using hest)]
      rw [List.find?_cons_of_neg _ (by simpa using hstrat)]
      rw [List.find?_cons_of_pos _ (by simpa using hmiss)]
    rw [compute_task_risk, hfind]
    rfl
  · have hsome : (findMissing df2.cols).isSome := by
      rw [findMissing, List.find?_isSome]
      exact ⟨c, hc, by simpa using hc2⟩
    obtain ⟨c2, hc2eq⟩ := Option.isSome_iff_exists.mp hsome
    refine ⟨c2, List.mem_of_find?_eq_some hc2eq, ?_, ?_⟩
    · have := List.find?_some hc2eq
      simpa using this
    · rw [compute_task_risk, hc2eq]

/-! ### Sigmoid facts and numeric exponential bounds -/

theorem sigmoid_pos (x : ℚ) : 0 < sigmoid x := by
  rw [sigmoid]
  positivity

theorem sigmoid_lt_one (x : ℚ) : sigmoid x < 1 := by
  rw [sigmoid]
  rw [div_lt_one (by positivity)]
  linarith [Real.exp_pos (-(x : ℝ))]

theorem clip01_sigmoid (x : ℚ) : clip01 (sigmoid x) = sigmoid x := by
  rw [clip01, max_eq_right (sigmoid_pos x).le, min_eq_right (sigmoid_lt_one x).le]

theorem sigmoid_le_sigmoid {x y : ℚ} (h : x ≤ y) : sigmoid x ≤ sigmoid y := by
  rw [sigmoid, sigmoid]
  have hexp : Real.exp (-(y : ℝ)) ≤ Real.exp (-(x : ℝ)) := by
    apply Real.exp_le_exp.mpr
    have : (x : ℝ) ≤ (y : ℝ) := by exact_mod_cast h
    linarith
  have h1 : (0:ℝ) < 1 + Real.exp (-(y : ℝ)) := by positivity
  exact one_div_le_one_div_of_le h1 (by linarith)

theorem sigmoid_lt_sigmoid {x y : ℚ} (h : x < y) : sigmoid x < sigmoid y := by
  rw [sigmoid, sigmoid]
  have hexp : Real.exp (-(y : ℝ)) < Real.exp (-(x : ℝ)) := by
    apply Real.exp_lt_exp.mpr
    have : (x : ℝ) < (y : ℝ) := by exact_mod_cast h
    linarith
  have h1 : (0:ℝ) < 1 + Real.exp (-(y : ℝ)) := by positivity
  exact one_div_lt_one_div_of_lt h1 (by linarith)

theorem clip01_nonneg (x : ℝ) : 0 ≤ clip01 x := by
  rw [clip01]
  exact le_min (by norm_num) (le_max_left 0 x)

theorem clip01_le_one (x : ℝ) : clip01 x ≤ 1 := min_le_left 1 _

/-- Taylor bounds at order 4: `exp(1/10) ∈ [6631/6000 − 1/192000,
6631/6000 + 1/192000] ⊆ [1.105161, 1.105172]`. -/
theorem exp_tenth_bounds :
    (1.105161 : ℝ) ≤ Real.exp (1/10) ∧ Real.exp (1/10) ≤ 1.105172 := by
  have hx : |(1:ℝ)/10| ≤ 1 := by rw [abs_of_nonneg] <;> norm_num
  have h := Real.exp_bound hx (n := 4) (by norm_num)
  rw [abs_le] at h
  obtain ⟨h1, h2⟩ := h
  norm_num [Finset.sum_range_succ, Nat.factorial, abs_of_nonneg] at h1 h2
  constructor <;> linarith

/-- Taylor bounds at order 6: `exp(3/5) ∈ [1.82197, 1.82213]`. -/
theorem exp_threefifths_bounds :
    (1.82197 : ℝ) ≤ Real.exp (3/5) ∧ Real.exp (3/5) ≤ 1.82213 := by
  have hx : |(3:ℝ)/5| ≤ 1 := by rw [abs_of_nonneg] <;> norm_num
  have h := Real.exp_bound hx (n := 6) (by norm_num)
  rw [abs_le] at h
  obtain ⟨h1, h2⟩ := h
  norm_num [Finset.sum_range_succ, Nat.factorial, abs_of_nonneg] at h1 h2
  constructor <;> linarith

theorem exp_sixfifths_ub : Real.exp (6/5) ≤ 3.3202 := by
  have hadd : Real.exp ((3:ℝ)/5 + 3/5) = Real.exp (3/5) * Real.exp (3/5) :=
    Real.exp_add _ _
  have h35 := exp_threefifths_bounds
  have hnn : (0:ℝ) ≤ Real.exp (3/5) := (Real.exp_pos _).le
  have h65 : (6:ℝ)/5 = 3/5 + 3/5 := by norm_num
  rw [h65, hadd]
  nlinarith [h35.1, h35.2]

/-- `sigmoid(-1/10) = 1/(1 + exp(1/10))`. -/
theorem sigmoid_neg_tenth_eq :
    sigmoid (-(1/10)) = 1 / (1 + Real.exp (1/10)) := by
  rw [sigmoid]
  norm_num

theorem sigmoid_neg_tenth_bounds :
    (0.47502 : ℝ) ≤ sigmoid (-(1/10)) ∧ sigmoid (-(1/10)) ≤ 0.475024 := by
  rw [sigmoid_neg_tenth_eq]
  have hb := exp_tenth_bounds
  have hpos : (0:ℝ) < 1 + Real.exp (1/10) := by positivity
  constructor
  · rw [le_div_iff hpos]
    nlinarith [hb.2]
  · rw [div_le_iff hpos]
    nlinarith [hb.1]

theorem sigmoid_neg_sixfifths_lb : (0.2314 : ℝ) < sigmoid (-(6/5)) := by
  have heq : sigmoid (-(6/5)) = 1 / (1 + Real.exp (6/5)) := by
    rw [sigmoid]
    norm_num
  rw [heq]
  have hub := exp_sixfifths_ub
  have hpos : (0:ℝ) < 1 + Real.exp (6/5) := by positivity
  rw [lt_div_iff hpos]
  nlinarith

/-- The single task of the spec's end-to-end scenario A. -/
def taskA : Task :=
  ⟨"t", 1, 4, 3, 3, false⟩

theorem scenario_A_score : riskScoreOf ([taskA].map clipTask) 6 7 (clipTask taskA)
    = -(1/10) := by
  rw [riskScoreOf, onormOf, sevOf, slackOf, urgencyOf, compOf, depOf, competingHours,
    capacityBD, windowOf]
  simp only [clipTask, taskA, List.map_cons, List.map_nil, List.filter, eps]
  norm_num

/-- C2: scenario A — one task `{days_left: 1, est_hours: 4,
strategic_importance: 3, business_impact: 3, dependency_risk: false}` at
capacity 6 and horizon 7 gives `deadline_window_days = 1`,
`capacity_before_deadline = 6`, `slack_hours = 2`, `overload_norm = 0`,
`urgency = 1`, `competition_pressure = 0`, `risk_score = -0.1`, and
`failure_probability = sigmoid(-0.1) ≈ 0.475`. -/
theorem scenario_A_row :
    (rowAt [taskA] 6 7 0).deadline_window_days = 1 ∧
    (rowAt [taskA] 6 7 0).capacity_before_deadline = 6 ∧
    (rowAt [taskA] 6 7 0).slack_hours = 2 ∧
    (rowAt [taskA] 6 7 0).overload_norm = 0 ∧
    (rowAt [taskA] 6 7 0).urgency = 1 ∧
    (rowAt [taskA] 6 7 0).competition_pressure = 0 ∧
    (rowAt [taskA] 6 7 0).risk_score = -(1/10) ∧
    (rowAt [taskA] 6 7 0).failure_probability = sigmoid (-(1/10)) ∧
    |(rowAt [taskA] 6 7 0).failure_probability - 0.475| ≤ 1/1000 := by
  rw [rowAt_eq _ _ _ 0 (by norm_num)]
  have hget : ([taskA].get ⟨0, by norm_num⟩) = taskA := rfl
  rw [hget]
  refine ⟨?_, ?_, ?_, ?_, ?_, ?_, ?_, ?_, ?_⟩
  · show windowOf 7 (clipTask taskA) = 1
    rw [windowOf]
    simp [clipTask, taskA]
  · show capacityBD 6 7 (clipTask taskA) = 6
    rw [capacityBD, windowOf]
    simp [clipTask, taskA]
  · show slackOf 6 7 (clipTask taskA) = 2
    rw [slackOf, capacityBD, windowOf]
    simp [clipTask, taskA]
    norm_num
  · show onormOf 6 7 (clipTask taskA) = 0
    rw [onormOf, sevOf, slackOf, capacityBD, windowOf]
    simp [clipTask, taskA]
    norm_num
  · show urgencyOf (clipTask taskA) = 1
    rw [urgencyOf]
    simp [clipTask, taskA]
  · show compOf ([taskA].map clipTask) 6 7 (clipTask taskA) = 0
    rw [compOf, competingHours, capacityBD, windowOf]
    simp only [clipTask, taskA, List.map_cons, List.map_nil, List.filter, eps]
    norm_num
  · exact scenario_A_score
  · show clip01 (sigmoid (riskScoreOf ([taskA].map clipTask) 6 7 (clipTask taskA)))
      = sigmoid (-(1/10))
    rw [scenario_A_score, clip01_sigmoid]
  · show |clip01 (sigmoid (riskScoreOf ([taskA].map clipTask) 6 7 (clipTask taskA)))
      - 0.475| ≤ 1/1000
    rw [scenario_A_score, clip01_sigmoid]
    have hb := sigmoid_neg_tenth_bounds
    rw [abs_le]
    constructor <;> linarith [hb.1, hb.2]

theorem weighted_stress_singleton (r : RiskRow) :
    compute_weighted_stress [r] =
      round1R (r.failure_probability * (r.impact_weight : ℝ) /
        ((r.impact_weight + eps : ℚ) : ℝ) * 100) := by
  simp [compute_weighted_stress]

/-- C7 (amended): for a single-task table the impact weight cancels only up
to the one-decimal rounding and the `1e-9` epsilon guard:
`weighted_stress` is within `1/20 + 1/10^6` of `100 × failure_probability`
(the claimed exact equality fails, see the counterexample). -/
theorem weighted_stress_single_task (t : Task) (cap : ℚ) (horizon : ℤ) :
    |compute_weighted_stress (riskRows [t] cap horizon) -
      100 * (rowAt [t] cap horizon 0).failure_probability| ≤ 1/20 + 1/1000000 := by
  have hrows : riskRows [t] cap horizon =
      [mkRiskRow ([t].map clipTask) cap horizon (clipTask t)] := rfl
  have hrow : rowAt [t] cap horizon 0 =
      mkRiskRow ([t].map clipTask) cap horizon (clipTask t) :=
    rowAt_eq [t] cap horizon 0 (by norm_num)
  rw [hrows, hrow, weighted_stress_singleton]
  set r := mkRiskRow ([t].map clipTask) cap horizon (clipTask t) with hr
  have hfp0 : (0:ℝ) ≤ r.failure_probability := clip01_nonneg _
  have hfp1 : r.failure_probability ≤ 1 := clip01_le_one _
  have hw : (1:ℚ)/10 ≤ r.impact_weight := le_max_left _ _
  have hwR : (1:ℝ)/10 ≤ (r.impact_weight : ℝ) := by
    have := (Rat.cast_le (K := ℝ)).mpr hw
    push_cast at this
    linarith
  have hD : ((r.impact_weight + eps : ℚ) : ℝ) = (r.impact_weight : ℝ) + 1/1000000000 := by
    push_cast [eps]
    norm_num
  set v := r.failure_probability * (r.impact_weight : ℝ) /
    ((r.impact_weight + eps : ℚ) : ℝ) * 100 with hv
  have hDpos : (0:ℝ) < ((r.impact_weight + eps : ℚ) : ℝ) := by
    rw [hD]; linarith
  have hdiff : v - 100 * r.failure_probability =
      -(100 * r.failure_probability * (1/1000000000) /
        ((r.impact_weight + eps : ℚ) : ℝ)) := by
    rw [hv, hD]
    field_simp
    ring
  have hdiffabs : |v - 100 * r.failure_probability| ≤ 1/1000000 := by
    rw [hdiff, abs_neg, abs_of_nonneg (by positivity)]
    rw [div_le_iff hDpos, hD]
    nlinarith
  have hround := abs_round1R_sub_le v
  calc |round1R v - 100 * r.failure_probability|
      ≤ |round1R v - v| + |v - 100 * r.failure_probability| := abs_sub_le _ _ _
    _ ≤ 1/20 + 1/1000000 := by linarith

/-- C7 (counterexample): for the single-task table of scenario A the stress
index is exactly `47.5` while `100 × failure_probability =
100 × sigmoid(-0.1) ∈ (47.502, 47.5024)` — the claimed exact equality
`weighted_stress = 100 × failure_probability` is false. -/
theorem weighted_stress_not_exact_cex :
    compute_weighted_stress (riskRows [taskA] 6 7) ≠
      100 * (rowAt [taskA] 6 7 0).failure_probability := by
  have hrows : riskRows [taskA] 6 7 =
      [mkRiskRow ([taskA].map clipTask) 6 7 (clipTask taskA)] := rfl
  have hrow : rowAt [taskA] 6 7 0 =
      mkRiskRow ([taskA].map clipTask) 6 7 (clipTask taskA) :=
    rowAt_eq [taskA] 6 7 0 (by norm_num)
  have hfp : (mkRiskRow ([taskA].map clipTask) 6 7 (clipTask taskA)).failure_probability
      = sigmoid (-(1/10)) := by
    show clip01 (sigmoid (riskScoreOf ([taskA].map clipTask) 6 7 (clipTask taskA)))
      = sigmoid (-(1/10))
    rw [scenario_A_score, clip01_sigmoid]
  have hwq : (mkRiskRow ([taskA].map clipTask) 6 7 (clipTask taskA)).impact_weight
      = 3/5 := by
    show impactWeightOf (clipTask taskA) = 3/5
    rw [impactWeightOf]
    simp [clipTask, taskA]
    norm_num
  rw [hrows, hrow, weighted_stress_singleton, hfp, hwq]
  have hb := sigmoid_neg_tenth_bounds
  have hD : (((3:ℚ)/5 + eps : ℚ) : ℝ) = 3/5 + 1/1000000000 := by
    push_cast [eps]
    norm_num
  set v := sigmoid (-(1/10)) * ((3/5 : ℚ) : ℝ) / (((3:ℚ)/5 + eps : ℚ) : ℝ) * 100 with hv
  have h35 : (((3:ℚ)/5 : ℚ) : ℝ) = 3/5 := by norm_num
  have hvlb : (47.5019 : ℝ) ≤ v := by
    rw [hv, hD, h35, div_mul_eq_mul_div, le_div_iff (by norm_num)]
    nlinarith [hb.1]
  have hvub : v ≤ (47.5024 : ℝ) := by
    rw [hv, hD, h35, div_mul_eq_mul_div, div_le_iff (by norm_num)]
    nlinarith [hb.2]
  have hfloor : ⌊(10:ℝ) * v⌋ = 475 := by
    apply Int.floor_eq_iff.mpr
    constructor
    · push_cast
      nlinarith [hvlb]
    · push_cast
      nlinarith [hvub]
  have hws : round1R v = 47.5 := by
    rw [round1R, rheR, hfloor]
    rw [if_pos (by push_cast; nlinarith [hvub])]
    norm_num
  rw [hws]
  intro hcontra
  nlinarith [hb.1]

/-! #### Lower bounds on the risk score and the stress index (C9) -/

theorem clipTask_days_ge_one (t : Task) : 1 ≤ (clipTask t).days_left :=
  le_max_left 1 t.days_left

theorem riskScoreOf_gt_bias (tasks : List Task) (cap : ℚ) (horizon : ℤ) (u : Task)
    (hcap : 0 < cap) :
    -(6/5) < riskScoreOf (tasks.map clipTask) cap horizon (clipTask u) := by
  rw [riskScoreOf]
  have h1 : 0 ≤ onormOf cap horizon (clipTask u) := by
    rw [onormOf, sevOf]
    apply div_nonneg (le_max_left 0 _)
    rw [eps]
    linarith
  have h2 : 0 ≤ compOf (tasks.map clipTask) cap horizon (clipTask u) :=
    le_max_left 0 _
  have h3 : 0 < urgencyOf (clipTask u) := by
    rw [urgencyOf]
    have hd : (1:ℚ) ≤ ((clipTask u).days_left : ℚ) := by
      exact_mod_cast clipTask_days_ge_one u
    exact one_div_pos.mpr (by linarith)
  have h4 : 0 ≤ depOf (clipTask u) := by
    rw [depOf]
    split_ifs <;> norm_num
  linarith

theorem fp_gt_sigmoid_bias (tasks : List Task) (cap : ℚ) (horizon : ℤ) (u : Task)
    (hcap : 0 < cap) :
    sigmoid (-(6/5)) <
      (mkRiskRow (tasks.map clipTask) cap horizon (clipTask u)).failure_probability := by
  show sigmoid (-(6/5)) <
    clip01 (sigmoid (riskScoreOf (tasks.map clipTask) cap horizon (clipTask u)))
  rw [clip01_sigmoid]
  exact sigmoid_lt_sigmoid (riskScoreOf_gt_bias tasks cap horizon u hcap)

theorem sum_map_ratCast (l : List RiskRow) (f : RiskRow → ℚ) :
    (l.map (fun r => ((f r : ℚ) : ℝ))).sum = (((l.map f).sum : ℚ) : ℝ) := by
  induction l with
  | nil => simp
  | cons r l ih => simp [ih]

theorem sum_map_const_mul (c : ℝ) (l : List RiskRow) (f : RiskRow → ℝ) :
    (l.map (fun r => c * f r)).sum = c * (l.map f).sum := by
  induction l with
  | nil => simp
  | cons r l ih => simp [ih, mul_add]

theorem ratCast_le {a b : ℚ} (h : a ≤ b) : (a : ℝ) ≤ (b : ℝ) :=
  Rat.cast_le.mpr h

/-- C9: with a valid non-empty task table, positive capacity, and a positive
horizon, every row's failure probability strictly exceeds
`sigmoid(-1.2) > 0.2314`, and the weighted stress index exceeds 23. -/
theorem failure_probability_floor (tasks : List Task) (cap : ℚ) (horizon : ℤ)
    (i : ℕ)
    (hval : ∀ t ∈ tasks, 1 ≤ t.strategic_importance ∧ t.strategic_importance ≤ 5 ∧
      1 ≤ t.business_impact ∧ t.business_impact ≤ 5)
    (hcap : 0 < cap) (hhor : 1 ≤ horizon) (hne : tasks ≠ [])
    (hi : i < tasks.length) :
    sigmoid (-(6/5)) < (rowAt tasks cap horizon i).failure_probability ∧
    (0.2314 : ℝ) < sigmoid (-(6/5)) ∧
    (23 : ℝ) < compute_weighted_stress (riskRows tasks cap horizon) := by
  have hlb := sigmoid_neg_sixfifths_lb
  refine ⟨?_, hlb, ?_⟩
  · rw [rowAt_eq tasks cap horizon i hi]
    exact fp_gt_sigmoid_bias tasks cap horizon _ hcap
  · have hmem : ∀ r ∈ riskRows tasks cap horizon,
        (0.2314 : ℝ) < r.failure_probability ∧ (1:ℚ)/10 ≤ r.impact_weight := by
      intro r hr
      rw [riskRows, List.map_map] at hr
      obtain ⟨u, hu, rfl⟩ := List.mem_map.mp hr
      exact ⟨lt_trans hlb (fp_gt_sigmoid_bias tasks cap horizon u hcap),
        le_max_left _ _⟩
    have hSW : (0.2314 : ℝ) *
        ((((riskRows tasks cap horizon).map (fun r => r.impact_weight)).sum : ℚ) : ℝ) ≤
        ((riskRows tasks cap horizon).map
          (fun r => r.failure_probability * (r.impact_weight : ℝ))).sum := by
      rw [← sum_map_ratCast, ← sum_map_const_mul]
      apply List.sum_le_sum
      intro r hr
      have h1 := (hmem r hr).1
      have h2 : (0:ℝ) ≤ (r.impact_weight : ℝ) := by
        have h2q : (0:ℚ) ≤ r.impact_weight :=
          le_trans (by norm_num : (0:ℚ) ≤ 1/10) (hmem r hr).2
        exact_mod_cast h2q
      nlinarith
    have hrne : riskRows tasks cap horizon ≠ [] := by
      apply List.ne_nil_of_length_pos
      rw [riskRows_length]
      exact List.length_pos.mpr hne
    obtain ⟨r0, rest, hcons⟩ := List.exists_cons_of_ne_nil hrne
    have hW10 : (1:ℚ)/10 ≤
        (((riskRows tasks cap horizon).map (fun r => r.impact_weight)).sum : ℚ) := by
      rw [hcons, List.map_cons, List.sum_cons]
      have h0 : (1:ℚ)/10 ≤ r0.impact_weight :=
        (hmem r0 (by rw [hcons]; exact List.mem_cons_self r0 rest)).2
      have hrest : (0:ℚ) ≤ (rest.map (fun r => r.impact_weight)).sum := by
        apply List.sum_nonneg
        intro q hq
        obtain ⟨r, hr, rfl⟩ := List.mem_map.mp hq
        exact le_trans (by norm_num)
          (hmem r (by rw [hcons]; exact List.mem_cons_of_mem r0 hr)).2
      linarith
    have hW10R : (1:ℝ)/10 ≤
        ((((riskRows tasks cap horizon).map (fun r => r.impact_weight)).sum : ℚ) : ℝ) := by
      have := ratCast_le hW10
      simpa using this
    have hepsR : ((eps : ℚ) : ℝ) = 1/1000000000 := by
      rw [eps]
      push_cast
      norm_num
    have hDRpos : (0:ℝ) <
        ((((riskRows tasks cap horizon).map (fun r => r.impact_weight)).sum : ℚ) : ℝ)
          + ((eps : ℚ) : ℝ) := by
      rw [hepsR]
      linarith
    have hpre : (23.1 : ℝ) ≤
        (((riskRows tasks cap horizon).map
          (fun r => r.failure_probability * (r.impact_weight : ℝ))).sum /
          (((((riskRows tasks cap horizon).map
            (fun r => r.impact_weight)).sum : ℚ) : ℝ) + ((eps : ℚ) : ℝ))) * 100 := by
      rw [div_mul_eq_mul_div, le_div_iff hDRpos, hepsR]
      nlinarith [hSW, hW10R]
    have hround := abs_round1R_sub_le
      ((((riskRows tasks cap horizon).map
        (fun r => r.failure_probability * (r.impact_weight : ℝ))).sum /
        (((((riskRows tasks cap horizon).map
          (fun r => r.impact_weight)).sum : ℚ) : ℝ) + ((eps : ℚ) : ℝ))) * 100)
    rw [abs_le] at hround
    show (23:ℝ) < round1R _
    linarith [hround.1, hround.2]

/-! #### Monotonicity in capacity (C1) -/

theorem windowOf_ge_one (horizon : ℤ) (u : Task) (hh : 1 ≤ horizon) :
    1 ≤ windowOf horizon (clipTask u) :=
  le_min (clipTask_days_ge_one u) hh

theorem riskScoreOf_anti (tasks : List Task) (horizon : ℤ) (u : Task)
    (hh : 1 ≤ horizon) {c1 c2 : ℚ} (hc1 : 0 < c1) (h12 : c1 ≤ c2) :
    riskScoreOf (tasks.map clipTask) c2 horizon (clipTask u) ≤
      riskScoreOf (tasks.map clipTask) c1 horizon (clipTask u) := by
  have hwinQ : (1:ℚ) ≤ ((windowOf horizon (clipTask u) : ℤ) : ℚ) := by
    exact_mod_cast windowOf_ge_one horizon u hh
  have hwin0 : (0:ℚ) ≤ ((windowOf horizon (clipTask u) : ℤ) : ℚ) := by linarith
  have hcb1 : c1 ≤ capacityBD c1 horizon (clipTask u) := by
    rw [capacityBD]
    nlinarith
  have hcbpos : 0 < capacityBD c1 horizon (clipTask u) := lt_of_lt_of_le hc1 hcb1
  have hcbmono : capacityBD c1 horizon (clipTask u) ≤
      capacityBD c2 horizon (clipTask u) := by
    rw [capacityBD, capacityBD]
    nlinarith
  have hsev : sevOf c2 horizon (clipTask u) ≤ sevOf c1 horizon (clipTask u) := by
    rw [sevOf, sevOf, slackOf, slackOf]
    apply max_le_max (le_refl 0)
    linarith
  have hsev1 : 0 ≤ sevOf c1 horizon (clipTask u) := le_max_left 0 _
  have heps : (0:ℚ) < eps := by rw [eps]; norm_num
  have honorm : onormOf c2 horizon (clipTask u) ≤ onormOf c1 horizon (clipTask u) := by
    rw [onormOf, onormOf]
    exact div_le_div hsev1 hsev (by linarith) (by linarith)
  have hS := competingHours_nonneg tasks (clipTask u)
  have hcomp : compOf (tasks.map clipTask) c2 horizon (clipTask u) ≤
      compOf (tasks.map clipTask) c1 horizon (clipTask u) := by
    rw [compOf, compOf]
    apply max_le_max (le_refl 0)
    apply sub_le_sub_right
    exact div_le_div hS (le_refl _) (by linarith) (by linarith)
  rw [riskScoreOf, riskScoreOf]
  linarith

theorem fp_anti (tasks : List Task) (horizon : ℤ) (u : Task)
    (hh : 1 ≤ horizon) {c1 c2 : ℚ} (hc1 : 0 < c1) (h12 : c1 ≤ c2) :
    (mkRiskRow (tasks.map clipTask) c2 horizon (clipTask u)).failure_probability ≤
      (mkRiskRow (tasks.map clipTask) c1 horizon (clipTask u)).failure_probability := by
  show clip01 (sigmoid (riskScoreOf (tasks.map clipTask) c2 horizon (clipTask u))) ≤
    clip01 (sigmoid (riskScoreOf (tasks.map clipTask) c1 horizon (clipTask u)))
  rw [clip01_sigmoid, clip01_sigmoid]
  exact sigmoid_le_sigmoid (riskScoreOf_anti tasks horizon u hh hc1 h12)

theorem riskRows_weight_sum (tasks : List Task) (cap : ℚ) (horizon : ℤ) :
    ((riskRows tasks cap horizon).map (fun r => r.impact_weight)).sum =
      ((tasks.map clipTask).map impactWeightOf).sum := by
  rw [riskRows, List.map_map]
  rfl

theorem stress_anti (tasks : List Task) (horizon : ℤ) (hh : 1 ≤ horizon)
    {c1 c2 : ℚ} (hc1 : 0 < c1) (h12 : c1 ≤ c2) :
    compute_weighted_stress (riskRows tasks c2 horizon) ≤
      compute_weighted_stress (riskRows tasks c1 horizon) := by
  rw [compute_weighted_stress, compute_weighted_stress]
  apply round1R_mono
  rw [riskRows_weight_sum, riskRows_weight_sum]
  simp only [riskRows, List.map_map]
  have hWnn : (0:ℚ) ≤ (tasks.map (impactWeightOf ∘ clipTask)).sum := by
    apply List.sum_nonneg
    intro q hq
    obtain ⟨u, hu, rfl⟩ := List.mem_map.mp hq
    exact le_trans (by norm_num : (0:ℚ) ≤ 1/10) (le_max_left _ _)
  have hepsR : (0:ℝ) < ((eps : ℚ) : ℝ) := by
    rw [eps]
    push_cast
    norm_num
  have hWR : (0:ℝ) ≤ (((tasks.map (impactWeightOf ∘ clipTask)).sum : ℚ) : ℝ) := by
    exact_mod_cast hWnn
  have hD : (0:ℝ) < (((tasks.map (impactWeightOf ∘ clipTask)).sum : ℚ) : ℝ)
      + ((eps : ℚ) : ℝ) := by linarith
  have hS : ((tasks.map (((fun r : RiskRow =>
        r.failure_probability * (r.impact_weight : ℝ)) ∘
          mkRiskRow (tasks.map clipTask) c2 horizon) ∘ clipTask)).sum) ≤
      ((tasks.map (((fun r : RiskRow =>
        r.failure_probability * (r.impact_weight : ℝ)) ∘
          mkRiskRow (tasks.map clipTask) c1 horizon) ∘ clipTask)).sum) := by
    apply List.sum_le_sum
    intro u hu
    simp only [Function.comp_apply]
    have hwnn : (0:ℝ) ≤
        ((mkRiskRow (tasks.map clipTask) c2 horizon (clipTask u)).impact_weight : ℝ) := by
      have h0 : (0:ℚ) ≤ impactWeightOf (clipTask u) :=
        le_trans (by norm_num : (0:ℚ) ≤ 1/10) (le_max_left _ _)
      exact_mod_cast h0
    exact mul_le_mul_of_nonneg_right (fp_anti tasks horizon u hh hc1 h12) hwnn
  have hdiv := (div_le_div_right hD).mpr hS
  exact mul_le_mul_of_nonneg_right hdiv (by norm_num)

instance : IsRefl ForecastRow fcLE := ⟨fun _ => le_refl _⟩

theorem forecast_length (tasks : List Task) (base : ℚ) (horizon : ℤ)
    (scenarios : List ℚ) :
    (forecast_system_risk tasks base horizon scenarios).length = scenarios.length := by
  rw [forecast_system_risk]
  rw [(List.perm_insertionSort fcLE (scenarios.map (forecastRow tasks horizon base))).length_eq]
  exact List.length_map _ _

theorem forecast_mem (tasks : List Task) (base : ℚ) (horizon : ℤ)
    (scenarios : List ℚ) (fr : ForecastRow)
    (h : fr ∈ forecast_system_risk tasks base horizon scenarios) :
    ∃ δ ∈ scenarios, fr = forecastRow tasks horizon base δ := by
  rw [forecast_system_risk] at h
  rw [(List.perm_insertionSort fcLE _).mem_iff] at h
  obtain ⟨δ, hδ, hfr⟩ := List.mem_map.mp h
  exact ⟨δ, hδ, hfr.symm⟩

/-- C1: with the tasks and horizon fixed, raising the daily capacity never
raises any task's failure probability, and the forecast table's
`stress_index` column is non-increasing along its (capacity-ascending)
rows. -/
theorem capacity_monotonicity (tasks : List Task) (horizon : ℤ) (c1 c2 : ℚ)
    (i : ℕ) (base : ℚ) (scenarios : List ℚ) (j k : ℕ)
    (hh : 1 ≤ horizon) (hc1 : 0 < c1) (hcc : c1 ≤ c2) (hi : i < tasks.length)
    (hjk : j ≤ k)
    (hk : k < (forecast_system_risk tasks base horizon scenarios).length) :
    (rowAt tasks c2 horizon i).failure_probability ≤
      (rowAt tasks c1 horizon i).failure_probability ∧
    ((forecast_system_risk tasks base horizon scenarios).getD k default).stress_index ≤
      ((forecast_system_risk tasks base horizon scenarios).getD j default).stress_index := by
  constructor
  · rw [rowAt_eq tasks c2 horizon i hi, rowAt_eq tasks c1 horizon i hi]
    exact fp_anti tasks horizon _ hh hc1 hcc
  · have hj : j < (forecast_system_risk tasks base horizon scenarios).length :=
      lt_of_le_of_lt hjk hk
    have hsorted : List.Sorted fcLE (forecast_system_risk tasks base horizon scenarios) :=
      List.sorted_insertionSort fcLE _
    have hrel : fcLE
        ((forecast_system_risk tasks base horizon scenarios).get ⟨j, hj⟩)
        ((forecast_system_risk tasks base horizon scenarios).get ⟨k, hk⟩) :=
      hsorted.rel_get_of_le (by exact hjk)
    have hgj : (forecast_system_risk tasks base horizon scenarios).getD j default =
        (forecast_system_risk tasks base horizon scenarios).get ⟨j, hj⟩ := by
      rw [List.getD_eq_getElem _ _ hj]
      rfl
    have hgk : (forecast_system_risk tasks base horizon scenarios).getD k default =
        (forecast_system_risk tasks base horizon scenarios).get ⟨k, hk⟩ := by
      rw [List.getD_eq_getElem _ _ hk]
      rfl
    obtain ⟨δj, hδj, hfrj⟩ := forecast_mem tasks base horizon scenarios _
      ((forecast_system_risk tasks base horizon scenarios).get_mem j hj)
    obtain ⟨δk, hδk, hfrk⟩ := forecast_mem tasks base horizon scenarios _
      ((forecast_system_risk tasks base horizon scenarios).get_mem k hk)
    rw [hgj, hgk, hfrj, hfrk]
    rw [hfrj, hfrk] at hrel
    have hle : max 1 (base + δj) ≤ max 1 (base + δk) := hrel
    have hcap : (0:ℚ) < max 1 (base + δj) :=
      lt_of_lt_of_le one_pos (le_max_left 1 _)
    show compute_weighted_stress (riskRows tasks (max 1 (base + δk)) horizon) ≤
      compute_weighted_stress (riskRows tasks (max 1 (base + δj)) horizon)
    exact stress_anti tasks horizon hh hcap hle


/-! ### Concrete instances: counterexample for C6 and witnesses -/

/-- Ten exact hours due on day 1. -/
def taskX : SchedTask := ⟨"X", 1, 10, 0, 0⟩

/-- `0.123` hours due on day 1 — EDF schedules it first, leaving `X` with
`0.123` unfinished hours, which the deadline-risk report rounds to `0.12`. -/
def taskY : SchedTask := ⟨"Y", 1, 123/1000, 0, 0⟩

/-- C6 (counterexample): with tasks `X` (10 h, due day 1) and `Y` (0.123 h,
due day 1), capacity 10 and horizon 1 in Academic mode, task `X` is left
with `10 − 9.877 = 0.123` unfinished hours but its unique `DeadlineRisks`
entry reports `0.12` — `round(·, 2)` of the difference, not the exact
difference the claim asserts. -/
theorem schedule_unfinished_rounding_cex :
    totalAllocated [taskX, taskY] 10 1 "Academic" false "X" < taskX.est_hours ∧
    ((build_schedule [taskX, taskY] 10 1 "Academic" false).risks.filter
      (fun r => decide (r.task = "X"))) =
      [{ task := "X", unfinished_hours := 12/100, deadline_day := 1 }] ∧
    (12/100 : ℚ) ≠
      taskX.est_hours - totalAllocated [taskX, taskY] 10 1 "Academic" false "X" := by
  have hYX : ("Y" : String) ≠ "X" := by decide
  have hXY : ("X" : String) ≠ "Y" := by decide
  have hround : round2 (123/1000) = 12/100 := by
    rw [round2, rhe]
    norm_num
  have hsort : sortTasks "Academic" [taskX, taskY] = [taskY, taskX] := by
    rw [sortTasks, if_neg (by decide)]
    norm_num [List.insertionSort, List.orderedInsert, edfLE, taskX, taskY]
  have hevents : scheduleEvents [taskX, taskY] 10 1 "Academic" false =
      [(1, [("Y", 123/1000), ("X", 9877/1000)])] := by
    rw [scheduleEvents, schedRun, hsort]
    norm_num [runLoop, runDay, stepTask, remaining0, fpLookup, dictOf, updF,
      taskX, taskY, hYX, hXY]
  have htot : totalAllocated [taskX, taskY] 10 1 "Academic" false "X" = 9877/1000 := by
    rw [totalAllocated, hevents]
    norm_num [sumFor, List.filter_cons, hYX, hXY]
  refine ⟨?_, ?_, ?_⟩
  · rw [htot]
    norm_num [taskX]
  · show (deadlineRisks (sortTasks "Academic" [taskX, taskY])
        (schedRun [taskX, taskY] 10 1 "Academic" false).remFinal).filter
        (fun r => decide (r.task = "X")) = _
    rw [hsort, schedRun, hsort]
    norm_num [deadlineRisks, runLoop, runDay, stepTask, remaining0, fpLookup,
      dictOf, updF, taskX, taskY, hYX, hXY, hround, List.filterMap_cons,
      List.filter_cons]
  · rw [htot]
    norm_num [taskX]


/-- Witness for C1 at the scenario-A table, capacities 2 ≤ 3, horizon 7,
and the first two rows of the default forecast sweep. -/
theorem capacity_monotonicity_witness :
    (1:ℤ) ≤ 7 ∧ (0:ℚ) < 2 ∧ (2:ℚ) ≤ 3 ∧ 0 < [taskA].length ∧ (0:ℕ) ≤ 1 ∧
    1 < (forecast_system_risk [taskA] 6 7 defaultScenarios).length ∧
    ((rowAt [taskA] 3 7 0).failure_probability ≤
      (rowAt [taskA] 2 7 0).failure_probability ∧
    ((forecast_system_risk [taskA] 6 7 defaultScenarios).getD 1 default).stress_index ≤
      ((forecast_system_risk [taskA] 6 7 defaultScenarios).getD 0 default).stress_index) :=
  ⟨by norm_num, by norm_num, by norm_num, by norm_num, by norm_num,
   by rw [forecast_length]; decide,
   capacity_monotonicity [taskA] 7 2 3 0 6 defaultScenarios 0 1 (by norm_num)
     (by norm_num) (by norm_num) (by norm_num) (by norm_num)
     (by rw [forecast_length]; decide)⟩

/-- Witness for C3 (amended) at the `taskC3` table. -/
theorem competition_pressure_formula_witness :
    0 < [taskC3].length ∧
    ((rowAt [taskC3] 1 1 0).competition_pressure =
      max 0 (competingHours ([taskC3].map clipTask) (clipTask ([taskC3].getD 0 default)) /
        ((rowAt [taskC3] 1 1 0).capacity_before_deadline + eps) - 1) ∧
    (competingHours ([taskC3].map clipTask) (clipTask ([taskC3].getD 0 default)) ≤
        (rowAt [taskC3] 1 1 0).capacity_before_deadline →
      (rowAt [taskC3] 1 1 0).competition_pressure = 0)) :=
  ⟨by norm_num, competition_pressure_formula [taskC3] 1 1 0 (by norm_num)⟩

/-- Witness for C4 at the scenario-A table. -/
theorem risk_row_bounds_witness :
    (∀ t ∈ [taskA], 1 ≤ t.strategic_importance ∧ t.strategic_importance ≤ 5 ∧
      1 ≤ t.business_impact ∧ t.business_impact ≤ 5) ∧ 0 < [taskA].length ∧
    (0 ≤ (rowAt [taskA] 6 7 0).failure_probability ∧
    (rowAt [taskA] 6 7 0).failure_probability ≤ 1 ∧
    1/10 ≤ (rowAt [taskA] 6 7 0).impact_weight ∧
    (rowAt [taskA] 6 7 0).impact_weight ≤ 1) :=
  ⟨by norm_num [taskA], by norm_num,
   risk_row_bounds [taskA] 6 7 0 (by norm_num [taskA]) (by norm_num)⟩

/-- Witness for C5 at a one-task table, capacity 4, horizon 1. -/
theorem schedule_day_facts_witness :
    (0:ℚ) < 4 ∧ (0:ℕ) < 1 ∧
    (evsSum ((scheduleEvents [taskX] 4 1 "Academic" true).getD 0 (0, [])).2 ≤ 4 ∧
    ((build_schedule [taskX] 4 1 "Academic" true).days.getD 0 default).overload_hours
      = 0) :=
  ⟨by norm_num, by norm_num,
   schedule_day_facts [taskX] 4 1 "Academic" true 0 (by norm_num) (by norm_num)⟩

/-- Witness for C6 (amended) at the two-task table of the counterexample. -/
theorem schedule_work_facts_witness :
    ([taskX, taskY].map SchedTask.name).Nodup ∧
    (∀ u ∈ [taskX, taskY], 0 ≤ u.est_hours) ∧ taskX ∈ [taskX, taskY] ∧
    (totalAllocated [taskX, taskY] 10 1 "Academic" false taskX.name ≤
      taskX.est_hours ∧
    (totalAllocated [taskX, taskY] 10 1 "Academic" false taskX.name <
        taskX.est_hours →
      ((build_schedule [taskX, taskY] 10 1 "Academic" false).risks.filter
          (fun r => decide (r.task = taskX.name))) =
        [{ task := taskX.name
           unfinished_hours := round2 (taskX.est_hours -
             totalAllocated [taskX, taskY] 10 1 "Academic" false taskX.name)
           deadline_day := taskX.days_left }])) :=
  ⟨by decide, by norm_num [taskX, taskY], by simp,
   schedule_work_facts [taskX, taskY] 10 1 "Academic" false taskX (by decide)
     (by norm_num [taskX, taskY]) (by simp)⟩

/-- Witness for C8: a frame with every required column except
`business_impact`, and an empty frame missing `name`. -/
theorem missing_column_contract_witness :
    ("business_impact" ∉ ["name", "days_left", "est_hours",
      "strategic_importance", "dependency_risk"]) ∧
    ("name" ∈ ["name", "days_left", "est_hours", "strategic_importance",
      "dependency_risk"]) ∧
    ("days_left" ∈ ["name", "days_left", "est_hours", "strategic_importance",
      "dependency_risk"]) ∧
    ("est_hours" ∈ ["name", "days_left", "est_hours", "strategic_importance",
      "dependency_risk"]) ∧
    ("strategic_importance" ∈ ["name", "days_left", "est_hours",
      "strategic_importance", "dependency_risk"]) ∧
    ("name" ∈ required_cols) ∧ ("name" ∉ (RawFrame.mk [] []).cols) ∧
    (compute_task_risk ⟨["name", "days_left", "est_hours",
        "strategic_importance", "dependency_risk"], []⟩ 1 1 =
      .error (.keyError "Missing required column: business_impact") ∧
    ∃ c2 ∈ required_cols, c2 ∉ (RawFrame.mk [] []).cols ∧
      compute_task_risk (RawFrame.mk [] []) 1 1 =
        .error (.keyError ("Missing required column: " ++ c2))) :=
  ⟨by decide, by decide, by decide, by decide, by decide,
   by decide, by decide,
   missing_column_contract ["name", "days_left", "est_hours",
       "strategic_importance", "dependency_risk"] [] 1 1 (RawFrame.mk [] []) "name"
     (by decide) (by decide) (by decide) (by decide) (by decide) (by decide)
     (by decide)⟩

/-- Witness for C9 at the scenario-A table. -/
theorem failure_probability_floor_witness :
    (∀ t ∈ [taskA], 1 ≤ t.strategic_importance ∧ t.strategic_importance ≤ 5 ∧
      1 ≤ t.business_impact ∧ t.business_impact ≤ 5) ∧
    (0:ℚ) < 6 ∧ (1:ℤ) ≤ 7 ∧ [taskA] ≠ [] ∧ 0 < [taskA].length ∧
    (sigmoid (-(6/5)) < (rowAt [taskA] 6 7 0).failure_probability ∧
    (0.2314 : ℝ) < sigmoid (-(6/5)) ∧
    (23 : ℝ) < compute_weighted_stress (riskRows [taskA] 6 7)) :=
  ⟨by norm_num [taskA], by norm_num, by norm_num, by simp, by norm_num,
   failure_probability_floor [taskA] 6 7 0 (by norm_num [taskA]) (by norm_num)
     (by norm_num) (by simp) (by norm_num)⟩

end Cadence
